import Mathlib

/-!
# Verification of the timetable resolution-and-merge engine

Shallow embedding of the cell-resolution cascades and the run-length merge of
the summer-camp timetable generators:

* `generate_student_timetables.py` — per-student resolution (`StudentTT`),
* `generate_teacher_timetables.py` — per-teacher resolution (`TeacherTT`),
* `generate_timetables.py` — the legacy per-student variant (`OldTT`).

Strings are modelled as Lean `String`s (operated on through `String.toList`);
all text transforms of the Python source (word-bounded regex searches,
substitutions, `str.strip`, `str.lower`, `str.replace`) are embedded as
executable character-list functions below.  Times are modelled as minutes
after midnight (`Nat`): a row's time column is `some t` when the raw value
normalises to a valid `HH:MM` clock time, and `none` when it is empty or
invalid (such rows are skipped by every variant).  Python dictionaries are
modelled as insertion-ordered association lists.
-/

namespace PyStr

/-- Python whitespace for `str.strip` / regex `\s`: space, tab, newline,
carriage return, vertical tab, form feed (the source data is ASCII). -/
def pyIsSpace (c : Char) : Bool :=
  c = ' ' || c = '\t' || c = '\n' || c = '\r' || c = '\x0b' || c = '\x0c'

/-- Regex word character `\w`: ASCII alphanumeric or underscore. -/
def isWordChar (c : Char) : Bool :=
  c.isAlphanum || c = '_'

/-- `str.strip()` on a character list. -/
def stripL (s : List Char) : List Char :=
  ((s.dropWhile pyIsSpace).reverse.dropWhile pyIsSpace).reverse

/-- `str.strip()` on a `String`. -/
def pyStrip (s : String) : String :=
  String.mk (stripL s.toList)

/-- `str.lower()` (ASCII). -/
def strLower (s : String) : String :=
  String.mk (s.toList.map Char.toLower)

/-- Case-sensitive list equality as a prefix test. -/
def isPre : List Char → List Char → Bool
  | [], _ => true
  | _ :: _, [] => false
  | p :: ps, c :: cs => p == c && isPre ps cs

/-- Case-insensitive (ASCII) prefix test, for regex literals under
`re.IGNORECASE`. -/
def isPreCI : List Char → List Char → Bool
  | [], _ => true
  | _ :: _, [] => false
  | p :: ps, c :: cs => p.toLower == c.toLower && isPreCI ps cs

/-- Python substring containment `pat in hay` on lists. -/
def listContains : List Char → List Char → Bool
  | [], pat => pat.isEmpty
  | c :: rest, pat => isPre pat (c :: rest) || listContains rest pat

/-- Python `sub in s` on `String`s. -/
def strContains (s sub : String) : Bool :=
  listContains s.toList sub.toList

/-- Python `s.startswith(sub)`. -/
def strStarts (s sub : String) : Bool :=
  isPre sub.toList s.toList

/-- Word-character status of an optional adjacent character (out-of-string
counts as non-word, as in regex `\b`). -/
def optWord : Option Char → Bool
  | none => false
  | some c => isWordChar c

/-- Regex `\b` immediately before a match of `pat`: the previous character and
the first matched character differ in word-character status. -/
def boundaryL (prev : Option Char) (pat : List Char) : Bool :=
  optWord prev != optWord pat.head?

/-- Regex `\b` immediately after a match of `pat`, `next` being the rest of
the string. -/
def boundaryR (pat : List Char) (next : List Char) : Bool :=
  optWord pat.getLast? != optWord next.head?

/-- `re.search(r'\b<pat>\b', s)` as a Boolean, scanning left to right and
tracking the previous character for the left boundary. -/
def wordSearchAux (pat : List Char) : Option Char → List Char → Bool
  | _, [] => false
  | prev, c :: rest =>
    (isPre pat (c :: rest) && boundaryL prev pat
      && boundaryR pat ((c :: rest).drop pat.length))
    || wordSearchAux pat (some c) rest

/-- `re.search(r'\b' + re.escape(pat) + r'\b', s) is not None` (the source
only ever uses alphanumeric `pat`, so `re.escape` is the identity). -/
def wordSearch (pat s : String) : Bool :=
  wordSearchAux pat.toList none s.toList

/-- `re.sub(r'\b<pat>\b', '', s)`: remove every word-bounded occurrence,
scanning left to right over the original string (Python's non-overlapping
leftmost semantics).  `skip` counts characters still to be dropped from the
current match. -/
def removeWordAux (pat : List Char) : Nat → Option Char → List Char → List Char
  | _ + 1, _, [] => []
  | skip + 1, _, c :: rest => removeWordAux pat skip (some c) rest
  | 0, _, [] => []
  | 0, prev, c :: rest =>
    if pat ≠ [] && isPre pat (c :: rest) && boundaryL prev pat
        && boundaryR pat ((c :: rest).drop pat.length) then
      removeWordAux pat (pat.length - 1) (some c) rest
    else
      c :: removeWordAux pat 0 (some c) rest

/-- `re.sub(r'\b' + re.escape(pat) + r'\b', '', s)` on `String`s. -/
def removeWordAll (pat s : String) : String :=
  String.mk (removeWordAux pat.toList 0 none s.toList)

/-- Length of a match of `\b<P>\d+\b` starting at the head of `s` (given the
previous character), or `none`.  `P` is the instrument's id letter. -/
def idTokenLen (P : Char) (prev : Option Char) (s : List Char) : Option Nat :=
  match s with
  | [] => none
  | c :: rest =>
    let digits := rest.takeWhile Char.isDigit
    if c == P && boundaryL prev [P] && digits ≠ []
        && !optWord (rest.drop digits.length).head? then
      some (1 + digits.length)
    else
      none

/-- `re.findall(rf'\b<P>\d+\b', s)`: collect all word-bounded student ids. -/
def findIdsAux (P : Char) : Nat → Option Char → List Char → List (List Char)
  | _ + 1, _, [] => []
  | skip + 1, _, c :: rest => findIdsAux P skip (some c) rest
  | 0, _, [] => []
  | 0, prev, c :: rest =>
    match idTokenLen P prev (c :: rest) with
    | some n => ((c :: rest).take n) :: findIdsAux P (n - 1) (some c) rest
    | none => findIdsAux P 0 (some c) rest

/-- `re.findall(rf'\b<P>\d+\b', s)` on `String`s. -/
def findIds (P : Char) (s : String) : List String :=
  (findIdsAux P 0 none s.toList).map String.mk

/-- Length consumed by a match of `\b<P>\d+\b,?\s*` at the head of `s`. -/
def idCommaWsLen (P : Char) (prev : Option Char) (s : List Char) : Option Nat :=
  match idTokenLen P prev s with
  | none => none
  | some n =>
    let n := if (s.drop n).head? = some ',' then n + 1 else n
    some (n + ((s.drop n).takeWhile pyIsSpace).length)

/-- `re.sub(rf'\b<P>\d+\b,?\s*', '', s)`: remove all student ids together
with a trailing comma and whitespace. -/
def removeIdsAux (P : Char) : Nat → Option Char → List Char → List Char
  | _ + 1, _, [] => []
  | skip + 1, _, c :: rest => removeIdsAux P skip (some c) rest
  | 0, _, [] => []
  | 0, prev, c :: rest =>
    match idCommaWsLen P prev (c :: rest) with
    | some n => removeIdsAux P (n - 1) (some c) rest
    | none => c :: removeIdsAux P 0 (some c) rest

/-- `re.sub(rf'\b<P>\d+\b,?\s*', '', s)` on `String`s. -/
def removeIds (P : Char) (s : String) : String :=
  String.mk (removeIdsAux P 0 none s.toList)

/-- Scan the zone of characters before the final `)` (reading the reversed
remainder), stopping at the first `)`, and return the index of the last `(`
with at least one character of content (index ≥ 1), i.e. the leftmost `(` in
the original string whose content up to the final `)` is nonempty and
`)`-free.  Arguments: remaining reversed characters, current index, best
index so far. -/
def zoneScan : List Char → Nat → Option Nat → Option Nat
  | [], _, best => best
  | ')' :: _, _, best => best
  | '(' :: rest, i, best => zoneScan rest (i + 1) (if i ≥ 1 then some i else best)
  | _ :: rest, i, best => zoneScan rest (i + 1) best

/-- `re.sub(r'\s*\([^)]+\)$', '', s)`: strip one trailing parenthetical
(with nonempty, `)`-free content) and the whitespace before it. -/
def stripTrailingParenL (s : List Char) : List Char :=
  match s.reverse with
  | ')' :: t =>
    match zoneScan t 0 none with
    | some k => ((t.drop (k + 1)).dropWhile pyIsSpace).reverse
    | none => s
  | _ => s

/-- `re.sub(r'\s*\([^)]+\)$', '', s)` on `String`s. -/
def stripTrailingParen (s : String) : String :=
  String.mk (stripTrailingParenL s.toList)

/-- `str.replace(pat, rep)` (all occurrences) for nonempty `pat`, scanning
left to right non-overlapping. -/
def replaceAux (pat rep : List Char) : Nat → List Char → List Char
  | _ + 1, [] => []
  | skip + 1, _ :: rest => replaceAux pat rep skip rest
  | 0, [] => []
  | 0, c :: rest =>
    if pat ≠ [] && isPre pat (c :: rest) then
      rep ++ replaceAux pat rep (pat.length - 1) rest
    else
      c :: replaceAux pat rep 0 rest

/-- Python `s.replace(pat, rep)`; an empty `pat` inserts `rep` at every
position, as in Python. -/
def pyReplace (s pat rep : String) : String :=
  match pat.toList with
  | [] => String.mk (rep.toList ++ s.toList.flatMap fun c => c :: rep.toList)
  | _ => String.mk (replaceAux pat.toList rep.toList 0 s.toList)

/-- `str.replace(pat, rep, 1)`: replace only the first occurrence. -/
def replaceFirstAux (pat rep : List Char) : List Char → List Char
  | [] => []
  | c :: rest =>
    if pat ≠ [] && isPre pat (c :: rest) then
      rep ++ (c :: rest).drop pat.length
    else
      c :: replaceFirstAux pat rep rest

/-- Python `s.replace(pat, rep, 1)`. -/
def pyReplaceFirst (s pat rep : String) : String :=
  match pat.toList with
  | [] => String.mk (rep.toList ++ s.toList)
  | _ => String.mk (replaceFirstAux pat.toList rep.toList s.toList)

/-- `str.split()` (split on whitespace runs, dropping empties); `acc` holds
the current word reversed. -/
def splitWsAux : List Char → List Char → List (List Char)
  | acc, [] => if acc = [] then [] else [acc.reverse]
  | acc, c :: rest =>
    if pyIsSpace c then
      if acc = [] then splitWsAux [] rest else acc.reverse :: splitWsAux [] rest
    else
      splitWsAux (c :: acc) rest

/-- Python `s.split()`. -/
def splitWs (s : String) : List String :=
  (splitWsAux [] s.toList).map String.mk

/-- Python `s.isdigit()` for ASCII data. -/
def pyIsDigit (s : String) : Bool :=
  s.toList ≠ [] && s.toList.all Char.isDigit

/-- `re.sub(r'\n+', '\n', s)`: collapse newline runs; the Boolean records
whether the previous character was a newline. -/
def collapseNlAux : Bool → List Char → List Char
  | _, [] => []
  | last, c :: rest =>
    if c = '\n' then
      if last then collapseNlAux true rest else '\n' :: collapseNlAux true rest
    else
      c :: collapseNlAux false rest

/-- `re.sub(r'\n+', '\n', s)` on `String`s. -/
def collapseNewlines (s : String) : String :=
  String.mk (collapseNlAux false s.toList)

/-- `re.sub(r'\*+$', '', s)`: strip a trailing run of `*`, where Python's
`$` also matches just before one final newline. -/
def stripTrailingStarsL (s : List Char) : List Char :=
  match s.reverse with
  | '\n' :: t => ((t.dropWhile (· = '*')).reverse) ++ ['\n']
  | r => (r.dropWhile (· = '*')).reverse

/-- `re.sub(r'\*+$', '', s)` on `String`s. -/
def stripTrailingStars (s : String) : String :=
  String.mk (stripTrailingStarsL s.toList)

end PyStr

namespace PyStr

/-- Generic left-to-right `re.sub` scanner: `m` inspects the previous
character and the remaining characters and returns the consumed length
(which must be ≥ 1) and the replacement for a match at this position. -/
def scanSub (m : Option Char → List Char → Option (Nat × List Char)) :
    Nat → Option Char → List Char → List Char
  | _ + 1, _, [] => []
  | skip + 1, _, c :: rest => scanSub m skip (some c) rest
  | 0, _, [] => []
  | 0, prev, c :: rest =>
    match m prev (c :: rest) with
    | some (n, rep) => rep ++ scanSub m (n - 1) (some c) rest
    | none => c :: scanSub m 0 (some c) rest

/-- Lazy group `(.+?)` followed by the literal close `stop` (checked
case-sensitively when `ci = false`): the minimal nonempty run of
non-newline characters after which `stop` matches; returns the group. -/
def lazyGroupThen (stop : List Char) (ci : Bool) : List Char → Option (List Char)
  | [] => none
  | c :: rest =>
    if c = '\n' then none
    else if (if ci then isPreCI stop rest else isPre stop rest) then some [c]
    else (lazyGroupThen stop ci rest).map (c :: ·)

end PyStr

namespace Merge

/-- The run-length merge of consecutive entries with equal resolved text:
`itertools.groupby(schedule, key=lambda x: x[1])` in
`generate_teacher_timetables.py` (and `generate_timetables.py`), and the
equivalent `row_span` forward scan of `generate_student_timetables.py`. -/
def chunkBy {α : Type} (R : α → α → Bool) : List α → List (List α)
  | [] => []
  | a :: as =>
    match chunkBy R as with
    | [] => [[a]]
    | [] :: gs => [[a]] ++ [] :: gs
    | (b :: bs) :: gs =>
      if R a b then (a :: b :: bs) :: gs else [a] :: (b :: bs) :: gs

/-- Schedule entries: `(time in minutes, resolved text)`. -/
abbrev Entry := Nat × String

/-- Merge a daily schedule into blocks of equal text. -/
def mergeBlocks (l : List Entry) : List (List Entry) :=
  chunkBy (fun a b => a.2 == b.2) l

/-- The text carried by a block (all entries of a block share it). -/
def blockText (g : List Entry) : String :=
  (g.headD (0, "")).2

end Merge

namespace PyStr

/-- `\s+` followed by a regex literal (case-insensitive when `ci`): at least
one whitespace character, then the literal; returns the remainder.  The
whitespace run is maximal — since no literal used by the source starts with
whitespace, backtracking into a shorter run can never help. -/
def wsThenLit (lit : List Char) (ci : Bool) (u : List Char) : Option (List Char) :=
  let w := (u.takeWhile pyIsSpace).length
  if w ≥ 1 && (if ci then isPreCI lit (u.drop w) else isPre lit (u.drop w)) then
    some ((u.drop w).drop lit.length)
  else none

/-- Lazy group `(.+?)` with an arbitrary stop pattern: the minimal nonempty
run of non-newline characters after which `stop` holds. -/
def lazyGroupThenP (stop : List Char → Bool) : List Char → Option (List Char)
  | [] => none
  | c :: rest =>
    if c = '\n' then none
    else if stop rest then some [c]
    else (lazyGroupThenP stop rest).map (c :: ·)

/-- Backtracking for `\s+(.+?)…`: try the whitespace run from its maximal
length down to 1 and take the first length at which the lazy group
succeeds (regex greediness order for `\s+`). -/
def wsLazyGo (u : List Char) (grp : List Char → Option (List Char)) :
    Nat → Option (List Char)
  | 0 => none
  | w + 1 =>
    match grp (u.drop (w + 1)) with
    | some g => some g
    | none => wsLazyGo u grp w

/-- `\s+(.+?)…` at the head of `u`. -/
def wsThenLazy (u : List Char) (grp : List Char → Option (List Char)) :
    Option (List Char) :=
  wsLazyGo u grp (u.takeWhile pyIsSpace).length

/-- Stop pattern `\s+&\s+pianist` (case-insensitive). -/
def pianistStop (rest : List Char) : Bool :=
  match wsThenLit ['&'] true rest with
  | some r2 => (wsThenLit "pianist".toList true r2).isSome
  | none => false

/-- Stop pattern `(?:\*|$)` where Python's `$` matches at the end of the
string or just before one final newline. -/
def starOrEndStop (rest : List Char) : Bool :=
  rest.head? = some '*' || rest = [] || rest = ['\n']

end PyStr

namespace StudentTT

open PyStr Merge

/-- Per-student resolution context of `generate_student_timetables.py`:
the target student id, the instrument name (`music_instrument`), the
teacher→room mapping (`room_mappings`, insertion-ordered), and the target
student's group names (`student_to_groups[student]`). -/
structure Ctx where
  student : String
  instrument : String
  roomMappings : List (String × String)
  studentGroups : List String

/-- `music_instrument[0].upper()` — the id letter of the instrument (the
instrument name is nonempty in every run). -/
def Ctx.letter (ctx : Ctx) : Char :=
  (ctx.instrument.toList.headD ' ').toUpper

/-- Python `dict.get(k, d)` on an insertion-ordered association list. -/
def assocGetD (m : List (String × String)) (k d : String) : String :=
  ((m.find? fun p => p.1 == k).map (·.2)).getD d

/-- The case-insensitive room lookup of the private-lesson branch
(lines 337–343): scan the mapping for a key equal to the teacher up to
case; if that yields nothing (or an empty room), fall back to an exact
`dict.get` with default `""`. -/
def ciLookup (m : List (String × String)) (t : String) : String :=
  let r := ((m.find? fun p => strLower p.1 == strLower t).map (·.2)).getD ""
  if r == "" then assocGetD m t "" else r

/-- The case-insensitive room lookup of the simple-group branch
(lines 411–417), defaulting to `"TBD"`. -/
def ciLookupTBD (m : List (String × String)) (t : String) : String :=
  let r := ((m.find? fun p => strLower p.1 == strLower t).map (·.2)).getD "TBD"
  if r == "TBD" then assocGetD m t "TBD" else r

/-- Stable insertion of a teacher name into a list sorted by decreasing
length (`sorted(..., key=len, reverse=True)` keeps the original order of
equal-length names). -/
def insertLenDesc (x : String) : List String → List String
  | [] => [x]
  | y :: ys => if x.length ≥ y.length then x :: y :: ys else y :: insertLenDesc x ys

/-- `sorted(room_mappings.keys(), key=len, reverse=True)`. -/
def sortLenDesc (l : List String) : List String :=
  l.foldr insertLenDesc []

/-- Masterclass owning-teacher resolution (lines 286–296): the first known
teacher name, longest first, occurring as a substring of the cell text;
column-header teacher if none occurs. -/
def mcPickTeacher (keys : List String) (a colTeacher : String) : String :=
  match (sortLenDesc keys).find? fun k => strContains a k with
  | some t => t
  | none => colTeacher

/-- The masterclass branch output (lines 285–309): remove all student ids
(with trailing comma/whitespace), strip a trailing parenthetical, and append
the owning teacher's room (`"TBD"` if unmapped). -/
def mcDesc (ctx : Ctx) (a colTeacher : String) : String :=
  let teacher := mcPickTeacher (ctx.roomMappings.map (·.1)) a colTeacher
  let room := assocGetD ctx.roomMappings teacher "TBD"
  let base := pyStrip (removeIds ctx.letter a)
  let base := pyStrip (stripTrailingParen base)
  base ++ "\n(" ++ room ++ ")"

/-- `re.search(r'lesson with (.+?) & pianist', s)` returning group 1
(`ci` selects `re.IGNORECASE`). -/
def lessonPianistAux (ci : Bool) : List Char → Option (List Char)
  | [] => none
  | c :: rest =>
    match
      (if (if ci then isPreCI "lesson with ".toList (c :: rest)
          else isPre "lesson with ".toList (c :: rest)) then
        lazyGroupThenP
          (fun r => if ci then isPreCI " & pianist".toList r else isPre " & pianist".toList r)
          ((c :: rest).drop 12)
      else none) with
    | some g => some g
    | none => lessonPianistAux ci rest

/-- Lines 317–325: the pianist-lesson pattern is searched in the lowered
cleaned text; on a hit, the teacher name is re-extracted from the original
cell text case-insensitively (falling back to the lowered group). -/
def pianistTeacherName (cleaned a : String) : Option String :=
  match lessonPianistAux false (strLower cleaned).toList with
  | none => none
  | some g =>
    match lessonPianistAux true a.toList with
    | some g2 => some (pyStrip (String.mk g2))
    | none => some (pyStrip (String.mk g))

/-- The direct-identifier branch (lines 313–363). -/
def directDesc (ctx : Ctx) (a t : String) : String :=
  let cleaned := pyStrip (removeWordAll ctx.student a)
  let isPriv := pyStrip a == ctx.student || strContains (strLower cleaned) "private lesson"
  match pianistTeacherName cleaned a with
  | some tn =>
    "Private Lesson with " ++ tn ++ " & pianist\n(" ++ assocGetD ctx.roomMappings t "TBD" ++ ")"
  | none =>
    if isPriv then
      if t ≠ "" then
        let room := ciLookup ctx.roomMappings t
        let desc := if cleaned = "" then "Private Lesson with " ++ t else cleaned
        if room ≠ "" then desc ++ "\n(" ++ room ++ ")" else desc
      else
        "Practice\n(" ++ ctx.instrument ++ " practice room)"
    else
      if strLower cleaned == "practice" then
        "Practice\n(" ++ ctx.instrument ++ " practice room)"
      else cleaned

/-- The complex group branch (lines 366–395): `activity[len('Group'):]`,
commas to spaces, numeric tokens are group numbers, the rest form the
activity name; fires when the student's groups meet the parsed set. -/
def complexGroup (ctx : Ctx) (a : String) : Option String :=
  let body := pyStrip (String.mk (a.toList.drop 5))
  let parts := splitWs (pyReplace body "," " ")
  let groupNumbers := parts.filter pyIsDigit
  let nameParts := parts.filter fun p => !pyIsDigit p
  let activityName := pyStrip (String.intercalate " " nameParts)
  let involved := groupNumbers.map fun n => "Group " ++ n
  if ctx.studentGroups.any fun g => involved.contains g then
    if strContains (strLower activityName) "acting class" then
      some ("Acting Class\n(" ++ assocGetD ctx.roomMappings "Room Acting Class" "Room Acting Class" ++ ")")
    else if strContains (strLower activityName) "group" || strContains (strLower activityName) "room" then
      some activityName
    else
      some (activityName ++ "\n(Group)")
  else none

/-- `re.search(r'\(Room\s+(.+?)\)', s, re.IGNORECASE)` returning group 1. -/
def roomParenAux : List Char → Option (List Char)
  | [] => none
  | c :: rest =>
    match
      (if c = '(' && isPreCI "room".toList rest then
        wsThenLazy (rest.drop 4) (lazyGroupThenP fun r => isPre [')'] r)
      else none) with
    | some g => some g
    | none => roomParenAux rest

/-- The simple group branch (lines 398–420): a student group name is a
literal prefix of the cell text; the room comes from an explicit
`(Room X)` substring, else from the column teacher's mapping. -/
def simpleGroup (ctx : Ctx) (a t : String) : Option String :=
  if ctx.studentGroups.any fun g => strStarts a g then
    match roomParenAux a.toList with
    | some roomName => some ("Ensemble\n(Room " ++ String.mk roomName ++ ")")
    | none => some ("Ensemble\n(" ++ ciLookupTBD ctx.roomMappings t ++ ")")
  else none

/-- One iteration of the non-day-6 cell loop (lines 280–420) for the cell
text `a` under column teacher `t`: the first classifier that matches wins;
a complex-group cell whose groups miss the student falls through to the
simple-group test of the same cell, as in the source's flag logic. -/
def cellRule (ctx : Ctx) (a t : String) : Option String :=
  if a == "" then none
  else if strContains (strLower a) "masterclass" && wordSearch ctx.student a then
    some (mcDesc ctx a t)
  else if wordSearch ctx.student a then
    some (directDesc ctx a t)
  else if strStarts (strLower a) "group" && strContains a "," then
    match complexGroup ctx a with
    | some d => some d
    | none => simpleGroup ctx a t
  else if strStarts (strLower a) "group" then
    simpleGroup ctx a t
  else none

/-- The winning rule across a row's cells paired with their column
teachers, in column order. -/
def firstRuleMatch (ctx : Ctx) : List (String × String) → Option String
  | [] => none
  | (a, t) :: rest =>
    match cellRule ctx a t with
    | some d => some d
    | none => firstRuleMatch ctx rest

/-- The shared-activity allow-list of `generate_student_timetables.py`
(lines 130–153), verbatim. -/
def commonActivities : List String :=
  ["Welcome", "Lunch", "Break", "Ensemble Coaching", "Workshop", "Toilet Break",
   "Rehearsal for Students and Friends Concert",
   "Lina Summer Camp of Music Students & Friends Concert",
   "After concert refreshment (Maritime Museum)", "Group Activity",
   "Briefing for Saturday", "Yoga Class", "Harp Regulation Workshop",
   "Harp Regulation Class", "Harp Regulation", "Cello Regulation & Maintance Class",
   "Cello Regulation & Maintenance Class", "Workshop - Warm Up",
   "Cello MasterClass", "MasterClass", "Flute MasterClass", "Harp MasterClass"]

/-- The masterclass exclusion of the fallback (lines 431–436): a
masterclass cell is skipped when it names at least one student id and the
target student's id is not among them. -/
def mcExcluded (ctx : Ctx) (a : String) : Bool :=
  strContains (strLower a) "masterclass"
    && (let ids := findIds ctx.letter a
        !ids.isEmpty && !ids.contains ctx.student)

/-- The common-activity fallback scan (lines 424–443): the first non-empty,
non-excluded cell containing an allow-listed activity name. -/
def findCommon (ctx : Ctx) : List String → Option String
  | [] => none
  | a :: rest =>
    if a == "" then findCommon ctx rest
    else if mcExcluded ctx a then findCommon ctx rest
    else if commonActivities.any fun ca => strContains a ca then some a
    else findCommon ctx rest

/-- Full non-day-6 row resolution (lines 280–449) over cells paired with
column teachers: the cascade's winner, else the fallback, else `""`. -/
def resolveRowPairs (ctx : Ctx) (pairs : List (String × String)) : String :=
  match firstRuleMatch ctx pairs with
  | some d => d
  | none => (findCommon ctx (pairs.map (·.1))).getD ""

/-- Pair each (stripped) cell with its column teacher, padding a missing
teacher with `""` (`process_sheet` produces rectangular grids, so the pad
is never exercised on real data). -/
def zipT : List String → List String → List (String × String)
  | [], _ => []
  | a :: as, [] => (a, "") :: zipT as []
  | a :: as, t :: ts => (a, t) :: zipT as ts

end StudentTT

namespace StudentTT

open PyStr

/-- One grid row: the normalised time column (minutes after midnight, or
`none` when the raw value is empty/invalid and the row is skipped) and the
activity cells `row[1:]`. -/
structure Row where
  time : Option Nat
  cells : List String

/-- The fixed composite description of the day-6 check-in expansion
(lines 261–267). -/
def checkInText : String :=
  "Check in Maritime Museum\nBriefing for Saturday Concert\nMaritime Museum Tour"

/-- The day-6 16:30–17:00 free-time placeholder sentinel (line 243). -/
def freeTimeBlock : String := "DAY_6_FREE_TIME_BLOCK"

/-- Processing of one row for one student (lines 200–449): time filtering,
the day-6 cascade with its once-per-day check-in flag, or the non-day-6 rule
cascade.  `teachersS` are the stripped column headers; 17:00 = 1020,
16:30 = 990, 10:00 = 600.  Returns the updated check-in flag and the
appended entries. -/
def studentRowEntries (ctx : Ctx) (teachersS : List String) (dayIndex : Nat)
    (flag : Bool) (row : Row) : Bool × List (Nat × String) :=
  match row.time with
  | none => (flag, [])
  | some t =>
    if dayIndex < 5 && 1020 ≤ t then (flag, [])
    else if dayIndex + 1 = 6 then
      if 1020 ≤ t then (flag, [])
      else if 990 ≤ t then (flag, [(t, freeTimeBlock)])
      else
        let acts := row.cells.map pyStrip
        match acts.find? (fun a => !(a == "")) with
        | some a =>
          if strContains a "Check in Maritime Museum" then
            if flag then (flag, [])
            else (true, [(600, checkInText), (615, checkInText),
                         (630, checkInText), (645, checkInText)])
          else (flag, [(t, a)])
        | none => (flag, [(t, (findCommon ctx acts).getD "")])
    else
      let acts := row.cells.map pyStrip
      (flag, [(t, resolveRowPairs ctx (zipT acts teachersS))])

/-- Fold of `studentRowEntries` over a day's rows, threading the check-in
flag (reset to `False` at the start of each day, line 195). -/
def studentDayAux (ctx : Ctx) (teachersS : List String) (dayIndex : Nat) :
    Bool → List Row → List (Nat × String)
  | _, [] => []
  | flag, r :: rest =>
    let step := studentRowEntries ctx teachersS dayIndex flag r
    step.2 ++ studentDayAux ctx teachersS dayIndex step.1 rest

/-- One student's daily schedule, before the stable sort by time (`teachers`
is the raw header row `sheet_data[0][1:]`, stripped as in line 191). -/
def studentDay (ctx : Ctx) (teachers : List String) (dayIndex : Nat)
    (rows : List Row) : List (Nat × String) :=
  studentDayAux ctx (teachers.map pyStrip) dayIndex false rows

/-- Room-pattern `\(Room\s+[^)]+\)` (IGNORECASE): length of a match at the
head, if any. -/
def parenA : List Char → Option Nat
  | '(' :: t =>
    if isPreCI "room".toList t then
      let u := t.drop 4
      let tw := u.takeWhile (· ≠ ')')
      if tw.length < u.length && 2 ≤ tw.length
          && (tw.head?.map pyIsSpace).getD false then
        some (1 + 4 + tw.length + 1)
      else none
    else none
  | _ => none

/-- Room-pattern `\([A-Z]{1,3}\d+[A-Z]?\)` (IGNORECASE). -/
def parenB : List Char → Option Nat
  | '(' :: t =>
    let ls := t.takeWhile Char.isAlpha
    if 1 ≤ ls.length && ls.length ≤ 3 then
      let r1 := t.drop ls.length
      let ds := r1.takeWhile Char.isDigit
      if ds ≠ [] then
        match r1.drop ds.length with
        | ')' :: _ => some (1 + ls.length + ds.length + 1)
        | c :: ')' :: _ =>
          if c.isAlpha then some (1 + ls.length + ds.length + 2) else none
        | _ => none
      else none
    else none
  | _ => none

/-- Room-pattern `\([^)]*room[^)]*\)` (IGNORECASE). -/
def parenC : List Char → Option Nat
  | '(' :: t =>
    let tw := t.takeWhile (· ≠ ')')
    if tw.length < t.length && listContains (tw.map Char.toLower) "room".toList then
      some (1 + tw.length + 1)
    else none
  | _ => none

/-- Room-pattern `\(Group\)` (IGNORECASE). -/
def parenD : List Char → Option Nat
  | '(' :: t => if isPreCI "group)".toList t then some 7 else none
  | _ => none

/-- `practice\s+room` (IGNORECASE) occurring inside a character list. -/
def practiceWsRoom : List Char → Bool
  | [] => false
  | c :: rest =>
    (isPreCI "practice".toList (c :: rest)
      && (wsThenLit "room".toList true ((c :: rest).drop 8)).isSome)
    || practiceWsRoom rest

/-- Room-pattern `\([^)]*practice\s+room[^)]*\)` (IGNORECASE). -/
def parenE : List Char → Option Nat
  | '(' :: t =>
    let tw := t.takeWhile (· ≠ ')')
    if tw.length < t.length && practiceWsRoom tw then
      some (1 + tw.length + 1)
    else none
  | _ => none

/-- Wrap a parenthetical pattern as the sub `\s*(<paren>)` → `\n\1`:
maximal whitespace before the parenthetical is consumed and the
replacement is a newline plus the parenthetical text. -/
def wsParenMatcher (pm : List Char → Option Nat) (s : List Char) :
    Option (Nat × List Char) :=
  let w := (s.takeWhile pyIsSpace).length
  let rest := s.drop w
  match pm rest with
  | some plen => some (w + plen, '\n' :: rest.take plen)
  | none => none

/-- Pattern `\s+(or)\s+` → `\n\1` (IGNORECASE): the trailing whitespace is
consumed by the match, as in the source. -/
def orMatcher (s : List Char) : Option (Nat × List Char) :=
  let w := (s.takeWhile pyIsSpace).length
  if w ≥ 1 then
    match s.drop w with
    | c1 :: c2 :: rest2 =>
      if c1.toLower == 'o' && c2.toLower == 'r' then
        let w2 := (rest2.takeWhile pyIsSpace).length
        if w2 ≥ 1 then some (w + 2 + w2, '\n' :: c1 :: [c2]) else none
      else none
    | _ => none
  else none

/-- The six `room_patterns` substitutions of the student renderer
(lines 510–521), applied in source order. -/
def roomPatternSubs (s : List Char) : List Char :=
  let s := scanSub (fun _ u => wsParenMatcher parenA u) 0 none s
  let s := scanSub (fun _ u => wsParenMatcher parenB u) 0 none s
  let s := scanSub (fun _ u => wsParenMatcher parenC u) 0 none s
  let s := scanSub (fun _ u => wsParenMatcher parenD u) 0 none s
  let s := scanSub (fun _ u => wsParenMatcher parenE u) 0 none s
  scanSub (fun _ u => orMatcher u) 0 none s

/-- A day-6 row reaches the check-in expansion: its time parses and passes
the day-6 window (before 16:30), and its first non-empty cell contains the
check-in keyword (lines 251–268). -/
def rowTriggers (row : Row) : Bool :=
  match row.time with
  | none => false
  | some t =>
    if 1020 ≤ t then false
    else if 990 ≤ t then false
    else
      match (row.cells.map pyStrip).find? (fun a => !(a == "")) with
      | some a => strContains a "Check in Maritime Museum"
      | none => false

/-- The student renderer's cell post-processing (lines 504–529): the day-6
placeholder becomes the empty description, room patterns are moved to new
lines, newline runs are collapsed, and room names are replaced by room
numbers when the room-number mapping is nonempty. -/
def renderStudentCell (roomNoMap : List (String × String)) (activity : String) : String :=
  let c := if activity == freeTimeBlock then "" else activity
  let c := String.mk (roomPatternSubs c.toList)
  let c := pyStrip (collapseNewlines c)
  if roomNoMap.isEmpty then c
  else roomNoMap.foldl (fun s p => pyReplace s p.1 p.2) c

end StudentTT

namespace OldTT

open PyStr StudentTT

/-- Context of the legacy student variant `generate_timetables.py`:
`music_instrument` there is the lower-case filename stem. -/
structure Ctx where
  student : String
  instrument : String
  studentGroups : List String

/-- The legacy complex group branch (lines ~218–240): same parsing, but an
acting class maps to the literal `"Acting class"` and other phrases get
`" (Group)"` appended. -/
def complexGroupOld (ctx : Ctx) (a : String) : Option String :=
  let body := pyStrip (String.mk (a.toList.drop 5))
  let parts := splitWs (pyReplace body "," " ")
  let groupNumbers := parts.filter pyIsDigit
  let nameParts := parts.filter fun p => !pyIsDigit p
  let activityName := pyStrip (String.intercalate " " nameParts)
  let involved := groupNumbers.map fun n => "Group " ++ n
  if ctx.studentGroups.any fun g => involved.contains g then
    if strContains (strLower activityName) "acting class" then some "Acting class"
    else some (activityName ++ " (Group)")
  else none

/-- The legacy simple group branch: the cell must literally be one of the
student's group names. -/
def simpleGroupOld (ctx : Ctx) (a : String) : Option String :=
  if ctx.studentGroups.contains a then some "Ensemble" else none

/-- One iteration of the legacy cell loop (lines ~204–249). -/
def cellRuleOld (ctx : Ctx) (a t : String) : Option String :=
  if a == "" then none
  else if wordSearch ctx.student a then
    some
      (if pyStrip a == ctx.student then
        (if t ≠ "" then "Private lesson with " ++ t
         else "Practice (" ++ ctx.instrument ++ " practice room)")
      else
        let cleaned := pyStrip (removeWordAll ctx.student a)
        if strLower cleaned == "practice" then
          "Practice (" ++ ctx.instrument ++ " practice room)"
        else cleaned)
  else if strStarts (strLower a) "group" && strContains a "," then
    match complexGroupOld ctx a with
    | some d => some d
    | none => simpleGroupOld ctx a
  else if strStarts (strLower a) "group" then simpleGroupOld ctx a
  else none

/-- First legacy rule match across a row's cells. -/
def firstRuleMatchOld (ctx : Ctx) : List (String × String) → Option String
  | [] => none
  | (a, t) :: rest =>
    match cellRuleOld ctx a t with
    | some d => some d
    | none => firstRuleMatchOld ctx rest

/-- The legacy shared-activity allow-list (lines ~140–150). -/
def commonActivitiesOld : List String :=
  ["Welcome Speech", "Lunch", "Break", "Ensemble Coaching", "Workshop",
   "Toilet Break", "Rehearsal for Students and Friends Concert",
   "Lina Summer Camp of Music Students & Friends Concert",
   "After concert refreshment (Maritime Museum)"]

/-- The legacy fallback (lines ~251–270): a `"Master class with"` cell wins,
then exact list membership of an allow-listed name (the allow-list entry
itself is emitted), else `"Free Time"`. -/
def fallbackOld (cells : List String) : String :=
  match cells.find? (fun a => strStarts a "Master class with") with
  | some a => a
  | none =>
    match commonActivitiesOld.find? (fun ca => cells.contains ca) with
    | some ca => ca
    | none => "Free Time"

/-- Full legacy non-day-6 row resolution. -/
def resolveRowPairsOld (ctx : Ctx) (pairs : List (String × String)) : String :=
  match firstRuleMatchOld ctx pairs with
  | some d => d
  | none => fallbackOld (pairs.map (·.1))

end OldTT

namespace TeacherTT

open PyStr

/-- Per-teacher resolution context of `generate_teacher_timetables.py`. -/
structure Ctx where
  instrument : String
  nameMap : List (String × String)
  roomMappings : List (String × String)

/-- `music_instrument[0].upper()`. -/
def Ctx.letter (ctx : Ctx) : Char :=
  (ctx.instrument.toList.headD ' ').toUpper

/-- A match of `\b(P\d+)\s+Private\s+Lesson\s+with\s+.+?\s+&\s+pianist`
(IGNORECASE) starting at the head of `s`; returns group 1 (the id as
matched). -/
def pianistIdAt (P : Char) (prev : Option Char) (s : List Char) : Option (List Char) :=
  match s with
  | [] => none
  | c :: rest =>
    let digits := rest.takeWhile Char.isDigit
    if c.toLower == P.toLower && boundaryL prev [c] && digits ≠ [] then
      match wsThenLit "private".toList true (rest.drop digits.length) with
      | none => none
      | some r1 =>
        match wsThenLit "lesson".toList true r1 with
        | none => none
        | some r2 =>
          match wsThenLit "with".toList true r2 with
          | none => none
          | some r3 =>
            if (wsThenLazy r3 (lazyGroupThenP pianistStop)).isSome then
              some (c :: digits)
            else none
    else none

/-- Leftmost match of the pianist private-lesson pattern (lines 160–166). -/
def pianistIdSearchAux (P : Char) : Option Char → List Char → Option (List Char)
  | _, [] => none
  | prev, c :: rest =>
    match pianistIdAt P prev (c :: rest) with
    | some g => some g
    | none => pianistIdSearchAux P (some c) rest

/-- `re.search(rf'\b({P}\d+)\s+Private\s+Lesson\s+with\s+.+?\s+&\s+pianist',
s, re.IGNORECASE)`, returning group 1. -/
def pianistIdSearch (P : Char) (s : String) : Option String :=
  (pianistIdSearchAux P none s.toList).map String.mk

/-- A match of `harp\s+masterclass\s+by\s+(.+?)(?:\*|$)` (IGNORECASE) at the
head of `s`; returns group 1. -/
def harpMcAt (s : List Char) : Option (List Char) :=
  if isPreCI "harp".toList s then
    match wsThenLit "masterclass".toList true (s.drop 4) with
    | none => none
    | some r1 =>
      match wsThenLit "by".toList true r1 with
      | none => none
      | some r2 => wsThenLazy r2 (lazyGroupThenP starOrEndStop)
  else none

/-- Leftmost match of the harp-masterclass teacher pattern (line 171). -/
def harpMcSearchAux : List Char → Option (List Char)
  | [] => none
  | c :: rest =>
    match harpMcAt (c :: rest) with
    | some g => some g
    | none => harpMcSearchAux rest

/-- `re.search(r'harp\s+masterclass\s+by\s+(.+?)(?:\*|$)', s, re.IGNORECASE)`,
group 1. -/
def harpMcSearch (s : String) : Option String :=
  (harpMcSearchAux s.toList).map String.mk

/-- The harp-masterclass room step (lines 169–184). -/
def harpMcStep (ctx : Ctx) (a : String) : String :=
  match harpMcSearch a with
  | none => a
  | some g1 =>
    let mt := pyStrip (stripTrailingStars (pyStrip g1))
    let room := StudentTT.assocGetD ctx.roomMappings mt "TBD"
    if !strContains a "(" || !strContains a ")" then
      pyStrip (stripTrailingStars a) ++ "\n(" ++ room ++ ")"
    else a

/-- Largest digit count `k ≤ ds` such that the negative lookahead
`(?! Ensemble Coaching)` holds after `Group\s+` plus `k` digits (regex
backtracking order for the greedy `\d+`). -/
def descFindK (r1 : List Char) : Nat → Option Nat
  | 0 => none
  | k + 1 =>
    if isPre " Ensemble Coaching".toList (r1.drop (k + 1)) then descFindK r1 k
    else some (k + 1)

/-- A match of `(Group\s+\d+)(?! Ensemble Coaching)` at the head, with the
replacement `\1 Ensemble Coaching` (line 187). -/
def groupMatcher (s : List Char) : Option (Nat × List Char) :=
  if isPre "Group".toList s then
    let u := s.drop 5
    let w := (u.takeWhile pyIsSpace).length
    if w ≥ 1 then
      let ds := ((u.drop w).takeWhile Char.isDigit).length
      if ds ≥ 1 then
        match descFindK (u.drop w) ds with
        | some k => some (5 + w + k, s.take (5 + w + k) ++ " Ensemble Coaching".toList)
        | none => none
      else none
    else none
  else none

/-- `re.sub(r'(Group\s+\d+)(?! Ensemble Coaching)', r'\1 Ensemble Coaching', s)`. -/
def groupRename (s : String) : String :=
  String.mk (scanSub (fun _ u => groupMatcher u) 0 none s.toList)

/-- The per-cell text transformation of the teacher variant
(lines 149–195): day-6 lunch rewrites, or (other days) workshop/briefing
suppression, the pianist-lesson rewrite, the harp-masterclass room step,
the `Group N` rename, and id→display-name replacement. -/
def teacherTransform (ctx : Ctx) (isDay6 : Bool) (activity : String) : String :=
  if isDay6 then
    if strContains activity "Lunch" && strContains activity "Dress Up, Warm Up" then "Lunch"
    else if strContains activity "Concert call time" then "Lunch"
    else activity
  else
    let a :=
      if strStarts (strLower activity) "workshop"
          || strStarts (strLower activity) "briefing for saturday" then ""
      else activity
    if a == "" then a
    else
      match pianistIdSearch ctx.letter a with
      | some sid => StudentTT.assocGetD ctx.nameMap sid sid ++ " with pianist"
      | none =>
        let a :=
          if strContains (strLower a) "harp masterclass" && strContains (strLower a) "by" then
            harpMcStep ctx a
          else a
        let a := groupRename a
        (findIds ctx.letter a).foldl
          (fun s sid => pyReplace s sid (StudentTT.assocGetD ctx.nameMap sid sid)) a

/-- A teacher-variant grid row (same modelling as `StudentTT.Row`). -/
structure Row where
  time : Option Nat
  cells : List String

/-- Processing of one row for one teacher (lines 128–198): 22:00 = 1320 and
(day 6) 11:00 = 660 filters, then the teacher's column cell (`colIdx` is the
index in the full row, so cell `colIdx - 1`; a short row yields `""`), the
text transformation, and the add-only-if-nonempty map update. -/
def teacherRowStep (ctx : Ctx) (isDay6 : Bool) (colIdx : Nat) (row : Row) :
    Option (Nat × String) :=
  match row.time with
  | none => none
  | some t =>
    if 1320 ≤ t then none
    else if isDay6 && t < 660 then none
    else
      let a := teacherTransform ctx isDay6 (pyStrip (row.cells.getD (colIdx - 1) ""))
      if a == "" then none else some (t, a)

/-- Python dict assignment `m[k] = v`: update in place, else append. -/
def updMap (m : List (Nat × String)) (k : Nat) (v : String) : List (Nat × String) :=
  if m.any fun p => p.1 == k then
    m.map fun p => if p.1 == k then (k, v) else p
  else m ++ [(k, v)]

/-- Stable insertion by time key (Python `sorted` on dict items; keys are
unique, so comparison never reaches the value). -/
def insertByKey (x : Nat × String) : List (Nat × String) → List (Nat × String)
  | [] => [x]
  | y :: ys => if x.1 ≤ y.1 then x :: y :: ys else y :: insertByKey x ys

/-- `sorted(daily_schedule_map.items())`. -/
def sortByKey (m : List (Nat × String)) : List (Nat × String) :=
  m.foldr insertByKey []

/-- 19:00–21:45 (line 203). -/
def eveningTimes : List Nat :=
  [1140, 1155, 1170, 1185, 1200, 1215, 1230, 1245, 1260, 1275, 1290, 1305]

/-- 10:00–10:45 (line 218). -/
def morningTimes : List Nat := [600, 615, 630, 645]

/-- Teachers with the Friday-evening special event (line 101). -/
def specialFridayTeachers : List String :=
  ["Stephane RETY", "Tomasz SKWERES", "Sivan MEGAN", "Liya HUANG", "Gwyneth WENTINK"]

/-- The weekday evening placeholder sentinel (line 209). -/
def eveningMergeBlock : String := "EVENING_MERGE_BLOCK"

/-- The Saturday morning placeholder sentinel (line 220). -/
def saturdayMorningMergeBlock : String := "SATURDAY_MORNING_MERGE_BLOCK"

/-- One teacher's sorted daily schedule (lines 107–223): the row fold into
the time-keyed map, the non-day-6 evening override (19:00–21:45, Friday
special-teacher text), the day-6 morning override, then the sort by time. -/
def teacherDaySchedule (ctx : Ctx) (dayIndex : Nat) (colIdx : Nat)
    (teacher : String) (rows : List Row) : List (Nat × String) :=
  let isDay6 := dayIndex + 1 == 6
  let m := rows.foldl
    (fun m r =>
      match teacherRowStep ctx isDay6 colIdx r with
      | none => m
      | some (t, a) => updMap m t a) []
  let m :=
    if !isDay6 then
      let ev :=
        if dayIndex == 4 && specialFridayTeachers.contains teacher then
          "Transfer to Mandarin Oriental"
        else eveningMergeBlock
      eveningTimes.foldl (fun m et => updMap m et ev) m
    else m
  let m :=
    if isDay6 then morningTimes.foldl (fun m mt => updMap m mt saturdayMorningMergeBlock) m
    else m
  sortByKey m

/-- The full-day fill used before merging (lines 260–261): every canonical
time slot of the output grid gets the day's entry, or `""` when the day has
none (absent slots render as empty cells). -/
def fullDaySchedule (sortedTimes : List Nat) (daily : List (Nat × String)) :
    List (Nat × String) :=
  sortedTimes.map fun t => (t, (((daily.find? fun p => p.1 == t).map (·.2)).getD ""))

/-- The teacher renderer's cell post-processing (lines 272–290): placeholders
become empty, `*` is removed, one `(` and one ` Ensemble Coaching` move to
new lines, room names become room numbers. -/
def renderTeacherCell (roomNoMap : List (String × String)) (activity : String) : String :=
  let c := if activity == eveningMergeBlock || activity == saturdayMorningMergeBlock then ""
           else activity
  let c := pyReplace c "*" ""
  let c := if strContains c "(" && strContains c ")" && !strContains c "\n(" then
             pyReplaceFirst c "(" "\n(" else c
  let c := if strContains c "Ensemble Coaching" && !strContains c "\nEnsemble Coaching" then
             pyReplaceFirst c " Ensemble Coaching" "\nEnsemble Coaching" else c
  if roomNoMap.isEmpty then c
  else roomNoMap.foldl (fun s p => pyReplace s p.1 p.2) c

end TeacherTT

namespace Merge

/-- Every block produced by the merge is nonempty. -/
theorem chunkBy_ne_nil {α : Type} (R : α → α → Bool) :
    ∀ l : List α, ∀ g ∈ chunkBy R l, g ≠ []
  | [] => by simp [chunkBy]
  | a :: as => by
    have ih := chunkBy_ne_nil R as
    intro g hg
    rw [chunkBy] at hg
    rcases h : chunkBy R as with _ | ⟨hd, gs⟩ <;> rw [h] at hg
    · simp only [List.mem_singleton] at hg
      simp [hg]
    · rcases hd with _ | ⟨b, bs⟩
      · dsimp only at hg
        simp only [List.cons_append, List.nil_append, List.mem_cons] at hg
        rcases hg with hg | hg | hg
        · simp [hg]
        · subst hg
          exact absurd h (by intro hc; exact ih [] (hc ▸ List.mem_cons_self _ _) rfl)
        · exact ih g (h ▸ List.mem_cons_of_mem _ hg)
      · dsimp only at hg
        by_cases hR : R a b
        · rw [if_pos hR] at hg
          rcases List.mem_cons.mp hg with hg | hg
          · simp [hg]
          · exact ih g (h ▸ List.mem_cons_of_mem _ hg)
        · rw [if_neg hR] at hg
          rcases List.mem_cons.mp hg with hg | hg
          · simp [hg]
          · exact ih g (h ▸ hg)

/-- The merge loses and reorders nothing: concatenating the blocks gives
back the original schedule. -/
theorem chunkBy_flatten {α : Type} (R : α → α → Bool) :
    ∀ l : List α, (chunkBy R l).flatten = l
  | [] => by simp [chunkBy]
  | a :: as => by
    have ih := chunkBy_flatten R as
    rw [chunkBy]
    rcases h : chunkBy R as with _ | ⟨hd, gs⟩ <;> rw [h] at ih
    · simp at ih
      simp [ih]
    · rcases hd with _ | ⟨b, bs⟩
      · dsimp only
        simpa using ih
      · dsimp only
        by_cases hR : R a b
        · rw [if_pos hR]
          simpa using ih
        · rw [if_neg hR]
          simpa using ih

/-- Every entry of a block carries the block's text. -/
theorem mergeBlocks_text_eq :
    ∀ l : List Entry, ∀ g ∈ mergeBlocks l, ∀ e ∈ g, e.2 = blockText g
  | [] => by simp [mergeBlocks, chunkBy]
  | a :: as => by
    have ih := mergeBlocks_text_eq as
    intro g hg e he
    rw [mergeBlocks, chunkBy] at hg
    rcases h : chunkBy (fun a b => a.2 == b.2) as with _ | ⟨hd, gs⟩ <;> rw [h] at hg
    · simp only [List.mem_singleton] at hg
      subst hg
      simp only [List.mem_singleton] at he
      simp [he, blockText]
    · rcases hd with _ | ⟨b, bs⟩
      · dsimp only at hg
        simp only [List.cons_append, List.nil_append, List.mem_cons] at hg
        rcases hg with hg | hg | hg
        · subst hg
          simp only [List.mem_singleton] at he
          simp [he, blockText]
        · subst hg
          simp at he
        · exact ih g (by rw [mergeBlocks, h]; exact List.mem_cons_of_mem _ hg) e he
      · dsimp only at hg
        by_cases hR : (a.2 == b.2) = true
        · rw [if_pos hR] at hg
          rcases List.mem_cons.mp hg with hg | hg
          · subst hg
            have hab : a.2 = b.2 := by simpa using hR
            rcases List.mem_cons.mp he with he | he
            · simp [he, blockText]
            · have := ih (b :: bs) (by rw [mergeBlocks, h]; exact List.mem_cons_self _ _) e he
              simp only [blockText, List.headD_cons] at this ⊢
              rw [this, ← hab]
          · exact ih g (by rw [mergeBlocks, h]; exact List.mem_cons_of_mem _ hg) e he
        · rw [if_neg hR] at hg
          rcases List.mem_cons.mp hg with hg | hg
          · subst hg
            simp only [List.mem_singleton] at he
            simp [he, blockText]
          · exact ih g (by rw [mergeBlocks, h]; exact hg) e he

/-- Adjacent blocks never share equal text. -/
theorem mergeBlocks_chain :
    ∀ l : List Entry,
      List.Chain' (fun g h => blockText g ≠ blockText h) (mergeBlocks l)
  | [] => by simp [mergeBlocks, chunkBy]
  | a :: as => by
    have ih := mergeBlocks_chain as
    rw [mergeBlocks, chunkBy]
    rcases h : chunkBy (fun a b => a.2 == b.2) as with _ | ⟨hd, gs⟩ <;>
      rw [h] <;> rw [mergeBlocks, h] at ih
    · simp
    · rcases hd with _ | ⟨b, bs⟩
      · exact absurd rfl (chunkBy_ne_nil _ as [] (h ▸ List.mem_cons_self _ _))
      · dsimp only
        by_cases hR : (a.2 == b.2) = true
        · rw [if_pos hR]
          have hab : a.2 = b.2 := by simpa using hR
          rcases gs with _ | ⟨g', gs'⟩
          · simp
          · rcases List.chain'_cons.mp ih with ⟨hrel, hch⟩
            refine List.chain'_cons.mpr ⟨?_, hch⟩
            simpa [blockText, hab] using hrel
        · rw [if_neg hR]
          refine List.chain'_cons.mpr ⟨?_, ih⟩
          simp only [blockText, List.headD_cons]
          simpa using hR

end Merge

/-- `str.replace` on the empty string is the empty string (for a nonempty
pattern). -/
theorem pyReplace_empty (pat rep : String) (hp : pat ≠ "") :
    PyStr.pyReplace "" pat rep = "" := by
  obtain ⟨d⟩ := pat
  cases d with
  | nil => exact absurd rfl hp
  | cons c cs => rfl

/-- The room-number substitution pass maps the empty description to itself
whenever every mapped room name is nonempty. -/
theorem foldReplace_empty :
    ∀ m : List (String × String), (∀ p ∈ m, p.1 ≠ "") →
      m.foldl (fun s q => PyStr.pyReplace s q.1 q.2) "" = ""
  | [], _ => rfl
  | p :: rest, h => by
    rw [List.foldl_cons, pyReplace_empty p.1 p.2 (h p (List.mem_cons_self _ _))]
    exact foldReplace_empty rest fun q hq => h q (List.mem_cons_of_mem _ hq)

/-- The day-6 free-time placeholder renders as an empty description. -/
theorem renderStudentCell_freeTime (m : List (String × String))
    (hm : ∀ p ∈ m, p.1 ≠ "") :
    StudentTT.renderStudentCell m StudentTT.freeTimeBlock = "" := by
  cases m with
  | nil => rfl
  | cons p rest =>
    have h : StudentTT.renderStudentCell (p :: rest) StudentTT.freeTimeBlock
        = (p :: rest).foldl (fun s q => PyStr.pyReplace s q.1 q.2) "" := rfl
    rw [h]
    exact foldReplace_empty _ hm

/-- C3: for every DailySchedule, the merge step is a pure run-length
encoding over the sort-by-time order: concatenating all emitted blocks'
time ranges reconstructs exactly the original sorted time-slot sequence
(no gaps, no overlaps), every block is a nonempty run of entries sharing
the block's text, and no two adjacent blocks have equal text (exact string
equality). -/
theorem C3_merge_run_length_encoding :
    ∀ l : List Merge.Entry,
      (Merge.mergeBlocks l).flatten = l ∧
      (∀ g ∈ Merge.mergeBlocks l, g ≠ []) ∧
      (∀ g ∈ Merge.mergeBlocks l, ∀ e ∈ g, e.2 = Merge.blockText g) ∧
      List.Chain' (fun g h => Merge.blockText g ≠ Merge.blockText h)
        (Merge.mergeBlocks l) :=
  fun l =>
    ⟨Merge.chunkBy_flatten _ l, Merge.chunkBy_ne_nil _ l,
     Merge.mergeBlocks_text_eq l, Merge.mergeBlocks_chain l⟩

/-- C4: a time slot at or after 17:00 is excluded on weekdays (day indices
0–4) and on day 6; on day 6 a slot in 16:30–17:00 is retained as the
free-time placeholder entry instead; the placeholder merges with itself
like any equal text but renders as an empty description. -/
theorem C4_late_slot_cutoff_and_placeholder :
    ∀ (ctx : StudentTT.Ctx) (teachersS : List String) (flag : Bool)
      (row : StudentTT.Row) (d t : Nat) (m : List (String × String)) (t1 t2 : Nat),
      row.time = some t →
      (d < 5 → 1020 ≤ t →
        StudentTT.studentRowEntries ctx teachersS d flag row = (flag, [])) ∧
      (1020 ≤ t →
        StudentTT.studentRowEntries ctx teachersS 5 flag row = (flag, [])) ∧
      (990 ≤ t → t < 1020 →
        StudentTT.studentRowEntries ctx teachersS 5 flag row
          = (flag, [(t, StudentTT.freeTimeBlock)])) ∧
      ((∀ p ∈ m, p.1 ≠ "") → StudentTT.renderStudentCell m StudentTT.freeTimeBlock = "") ∧
      Merge.mergeBlocks [(t1, StudentTT.freeTimeBlock), (t2, StudentTT.freeTimeBlock)]
        = [[(t1, StudentTT.freeTimeBlock), (t2, StudentTT.freeTimeBlock)]] := by
  intro ctx teachersS flag row d t m t1 t2 hrow
  refine ⟨?_, ?_, ?_, renderStudentCell_freeTime m, rfl⟩
  · intro hd ht
    simp [StudentTT.studentRowEntries, hrow, hd, ht]
  · intro ht
    simp [StudentTT.studentRowEntries, hrow, ht]
  · intro h990 h1020
    have h1 : ¬ 1020 ≤ t := by omega
    simp [StudentTT.studentRowEntries, hrow, h1, h990]

/-- Witness for C4 at concrete inputs. -/
theorem C4_witness :
    StudentTT.studentRowEntries ⟨"F3", "Flute", [], []⟩ [] 0 false ⟨some 1020, []⟩
      = (false, []) ∧
    StudentTT.studentRowEntries ⟨"F3", "Flute", [], []⟩ [] 5 false ⟨some 1020, []⟩
      = (false, []) ∧
    StudentTT.studentRowEntries ⟨"F3", "Flute", [], []⟩ [] 5 false ⟨some 990, []⟩
      = (false, [(990, StudentTT.freeTimeBlock)]) ∧
    StudentTT.renderStudentCell [("Room A", "1")] StudentTT.freeTimeBlock = "" ∧
    Merge.mergeBlocks [(600, StudentTT.freeTimeBlock), (615, StudentTT.freeTimeBlock)]
      = [[(600, StudentTT.freeTimeBlock), (615, StudentTT.freeTimeBlock)]] :=
  ⟨(C4_late_slot_cutoff_and_placeholder ⟨"F3", "Flute", [], []⟩ [] false
      ⟨some 1020, []⟩ 0 1020 [("Room A", "1")] 600 615 rfl).1 (by decide) (by decide),
   (C4_late_slot_cutoff_and_placeholder ⟨"F3", "Flute", [], []⟩ [] false
      ⟨some 1020, []⟩ 5 1020 [("Room A", "1")] 600 615 rfl).2.1 (by decide),
   (C4_late_slot_cutoff_and_placeholder ⟨"F3", "Flute", [], []⟩ [] false
      ⟨some 990, []⟩ 5 990 [("Room A", "1")] 600 615 rfl).2.2.1 (by decide) (by decide),
   (C4_late_slot_cutoff_and_placeholder ⟨"F3", "Flute", [], []⟩ [] false
      ⟨some 990, []⟩ 5 990 [("Room A", "1")] 600 615 rfl).2.2.2.1 (by decide),
   (C4_late_slot_cutoff_and_placeholder ⟨"F3", "Flute", [], []⟩ [] false
      ⟨some 990, []⟩ 5 990 [("Room A", "1")] 600 615 rfl).2.2.2.2⟩

/-- Cells on which no rule fires do not affect the winner. -/
theorem firstRuleMatch_append (ctx : StudentTT.Ctx) :
    ∀ (pre rest : List (String × String)),
      (∀ p ∈ pre, StudentTT.cellRule ctx p.1 p.2 = none) →
      StudentTT.firstRuleMatch ctx (pre ++ rest) = StudentTT.firstRuleMatch ctx rest
  | [], _, _ => rfl
  | (a, t) :: pre, rest, h => by
    rw [List.cons_append, StudentTT.firstRuleMatch,
      h (a, t) (List.mem_cons_self _ _)]
    exact firstRuleMatch_append ctx pre rest fun p hp => h p (List.mem_cons_of_mem _ hp)

/-- If all earlier cells fire no rule and cell `(a, t)` fires one, the row
resolves to that rule's output. -/
theorem resolveRowPairs_winner (ctx : StudentTT.Ctx)
    (pre post : List (String × String)) (a t d : String)
    (hpre : ∀ p ∈ pre, StudentTT.cellRule ctx p.1 p.2 = none)
    (hwin : StudentTT.cellRule ctx a t = some d) :
    StudentTT.resolveRowPairs ctx (pre ++ (a, t) :: post) = d := by
  unfold StudentTT.resolveRowPairs
  rw [firstRuleMatch_append ctx pre _ hpre, StudentTT.firstRuleMatch, hwin]

/-- Membership is preserved by the length-descending insertion. -/
theorem mem_insertLenDesc (x y : String) :
    ∀ l : List String, (y ∈ StudentTT.insertLenDesc x l ↔ y = x ∨ y ∈ l)
  | [] => by simp [StudentTT.insertLenDesc]
  | z :: zs => by
    rw [StudentTT.insertLenDesc]
    by_cases h : x.length ≥ z.length
    · rw [if_pos h]
      simp
    · rw [if_neg h]
      rw [List.mem_cons, List.mem_cons, mem_insertLenDesc x y zs]
      tauto

/-- Membership is preserved by the length-descending sort. -/
theorem mem_sortLenDesc (y : String) :
    ∀ l : List String, (y ∈ StudentTT.sortLenDesc l ↔ y ∈ l)
  | [] => Iff.rfl
  | z :: zs => by
    show y ∈ StudentTT.insertLenDesc z (StudentTT.sortLenDesc zs) ↔ _
    rw [mem_insertLenDesc, mem_sortLenDesc y zs, List.mem_cons]

/-- The length-descending insertion preserves sortedness. -/
theorem pairwise_insertLenDesc (x : String) :
    ∀ l : List String,
      List.Pairwise (fun u v : String => v.length ≤ u.length) l →
      List.Pairwise (fun u v : String => v.length ≤ u.length)
        (StudentTT.insertLenDesc x l)
  | [], _ => by simp [StudentTT.insertLenDesc]
  | z :: zs, h => by
    rw [StudentTT.insertLenDesc]
    rcases List.pairwise_cons.mp h with ⟨hz, hzs⟩
    by_cases hx : x.length ≥ z.length
    · rw [if_pos hx]
      refine List.pairwise_cons.mpr ⟨?_, h⟩
      intro u hu
      rcases List.mem_cons.mp hu with hu | hu
      · exact hu ▸ hx
      · exact le_trans (hz u hu) hx
    · rw [if_neg hx]
      refine List.pairwise_cons.mpr ⟨?_, pairwise_insertLenDesc x zs hzs⟩
      intro u hu
      rcases (mem_insertLenDesc x u zs).mp hu with hu | hu
      · subst hu
        omega
      · exact hz u hu
  
/-- `sorted(keys, key=len, reverse=True)` is sorted by decreasing length. -/
theorem pairwise_sortLenDesc :
    ∀ l : List String,
      List.Pairwise (fun u v : String => v.length ≤ u.length)
        (StudentTT.sortLenDesc l)
  | [] => List.Pairwise.nil
  | z :: zs => pairwise_insertLenDesc z _ (pairwise_sortLenDesc zs)

/-- In a length-sorted list, `find?` returns an element of maximal length
among those satisfying the predicate. -/
theorem find_sorted_max (P : String → Bool) :
    ∀ l : List String,
      List.Pairwise (fun u v : String => v.length ≤ u.length) l →
      ∀ x, l.find? P = some x → ∀ y ∈ l, P y = true → y.length ≤ x.length
  | [], _, x, hx => by simp at hx
  | z :: zs, h, x, hx => by
    rcases List.pairwise_cons.mp h with ⟨hz, hzs⟩
    intro y hy hPy
    rw [List.find?_cons] at hx
    cases hPz : P z with
    | true =>
      rw [hPz] at hx
      injection hx with hx
      subst hx
      rcases List.mem_cons.mp hy with hy | hy
      · exact hy ▸ le_refl _
      · exact hz y hy
    | false =>
      rw [hPz] at hx
      rcases List.mem_cons.mp hy with hy | hy
      · rw [hy] at hPy
        rw [hPy] at hPz
        exact absurd hPz (by simp)
      · exact find_sorted_max P zs hzs x hx y hy hPy

/-- The scan of known teacher names, longest first, picks an occurring name
of maximal length, and falls back to the column teacher when none occurs. -/
theorem mcPickTeacher_spec (keys : List String) (a colT : String) :
    ((∃ k ∈ keys, PyStr.strContains a k = true) →
      StudentTT.mcPickTeacher keys a colT ∈ keys ∧
      PyStr.strContains a (StudentTT.mcPickTeacher keys a colT) = true ∧
      ∀ k ∈ keys, PyStr.strContains a k = true →
        k.length ≤ (StudentTT.mcPickTeacher keys a colT).length) ∧
    ((∀ k ∈ keys, PyStr.strContains a k = false) →
      StudentTT.mcPickTeacher keys a colT = colT) := by
  unfold StudentTT.mcPickTeacher
  cases h : (StudentTT.sortLenDesc keys).find? fun k => PyStr.strContains a k with
  | some t =>
    constructor
    · intro _
      have ht := List.find?_some h
      have htmem := (mem_sortLenDesc t keys).mp (List.mem_of_find?_eq_some h)
      refine ⟨htmem, ht, ?_⟩
      intro k hk hak
      exact find_sorted_max _ _ (pairwise_sortLenDesc keys) t h k
        ((mem_sortLenDesc k keys).mpr hk) hak
    · intro hall
      have ht := List.find?_some h
      have htmem := (mem_sortLenDesc t keys).mp (List.mem_of_find?_eq_some h)
      rw [hall t htmem] at ht
      exact absurd ht (by simp)
  | none =>
    constructor
    · rintro ⟨k, hk, hak⟩
      have := List.find?_eq_none.mp h k ((mem_sortLenDesc k keys).mpr hk)
      rw [hak] at this
      exact absurd rfl this
    · intro _
      rfl

/-- C1 (counterexample): the cell `"F3 Private Lesson"` in Jane Doe's
column has remaining text `"Private Lesson"` after removing the identifier
— which contains "private lesson" — yet resolution emits the remaining
text with the room line, not `"Private Lesson with Jane Doe\n(12B)"` as
the claim states. -/
theorem C1_counterexample :
    PyStr.pyStrip (PyStr.removeWordAll "F3" "F3 Private Lesson") = "Private Lesson" ∧
    PyStr.strContains (PyStr.strLower "Private Lesson") "private lesson" = true ∧
    StudentTT.resolveRowPairs ⟨"F3", "Flute", [("Jane Doe", "12B")], []⟩
      [("F3 Private Lesson", "Jane Doe")] = "Private Lesson\n(12B)" ∧
    ("Private Lesson\n(12B)" : String) ≠ "Private Lesson with Jane Doe\n(12B)" := by
  refine ⟨by decide, by decide, by decide, by decide⟩

/-- C1 (amended): in the direct-identifier branch (no masterclass keyword,
no pianist pattern, nonempty column teacher), a cell that strips to exactly
the identifier (remaining text empty) resolves to
`"Private Lesson with <teacher>"` plus the case-insensitively looked-up
room line (omitted when no room is mapped); a cell whose remaining text is
nonempty and contains "private lesson" resolves to that remaining text plus
the same room line.  The 09:00 `"F3"`/Jane Doe/12B scenario holds as
stated. -/
theorem C1_private_lesson_amended :
    ∀ (ctx : StudentTT.Ctx) (pre post : List (String × String)) (a t : String),
      (∀ p ∈ pre, StudentTT.cellRule ctx p.1 p.2 = none) →
      PyStr.strContains (PyStr.strLower a) "masterclass" = false →
      PyStr.wordSearch ctx.student a = true →
      t ≠ "" →
      (StudentTT.pianistTeacherName
          (PyStr.pyStrip (PyStr.removeWordAll ctx.student a)) a = none →
        PyStr.pyStrip a = ctx.student →
        PyStr.pyStrip (PyStr.removeWordAll ctx.student a) = "" →
        StudentTT.resolveRowPairs ctx (pre ++ (a, t) :: post)
          = if StudentTT.ciLookup ctx.roomMappings t ≠ "" then
              "Private Lesson with " ++ t ++ "\n(" ++ StudentTT.ciLookup ctx.roomMappings t ++ ")"
            else "Private Lesson with " ++ t) ∧
      (StudentTT.pianistTeacherName
          (PyStr.pyStrip (PyStr.removeWordAll ctx.student a)) a = none →
        PyStr.pyStrip (PyStr.removeWordAll ctx.student a) ≠ "" →
        PyStr.strContains
          (PyStr.strLower (PyStr.pyStrip (PyStr.removeWordAll ctx.student a)))
          "private lesson" = true →
        StudentTT.resolveRowPairs ctx (pre ++ (a, t) :: post)
          = if StudentTT.ciLookup ctx.roomMappings t ≠ "" then
              PyStr.pyStrip (PyStr.removeWordAll ctx.student a) ++ "\n("
                ++ StudentTT.ciLookup ctx.roomMappings t ++ ")"
            else PyStr.pyStrip (PyStr.removeWordAll ctx.student a)) ∧
      StudentTT.resolveRowPairs ⟨"F3", "Flute", [("Jane Doe", "12B")], []⟩ [("F3", "Jane Doe")]
        = "Private Lesson with Jane Doe\n(12B)" := by
  intro ctx pre post a t hpre hmc hws ht
  have ha : a ≠ "" := by
    intro h
    subst h
    rw [show PyStr.wordSearch ctx.student "" = false from rfl] at hws
    cases hws
  have h1 : ¬ ((a == "") = true) := by simp [ha]
  have h2 : ¬ ((PyStr.strContains (PyStr.strLower a) "masterclass"
      && PyStr.wordSearch ctx.student a) = true) := by simp [hmc]
  have hwin : StudentTT.cellRule ctx a t = some (StudentTT.directDesc ctx a t) := by
    rw [StudentTT.cellRule, if_neg h1, if_neg h2, if_pos hws]
  have hres := resolveRowPairs_winner ctx pre post a t _ hpre hwin
  refine ⟨?_, ?_, by decide⟩
  · intro hpi hstrip hclean
    rw [hres]
    unfold StudentTT.directDesc
    dsimp only
    rw [hpi]
    have hpriv : (PyStr.pyStrip a == ctx.student
        || PyStr.strContains (PyStr.strLower (PyStr.pyStrip (PyStr.removeWordAll ctx.student a)))
             "private lesson") = true := by
      simp [hstrip]
    rw [if_pos hpriv, if_pos ht, if_pos hclean]
  · intro hpi hne hpl
    rw [hres]
    unfold StudentTT.directDesc
    dsimp only
    rw [hpi]
    have hpriv : (PyStr.pyStrip a == ctx.student
        || PyStr.strContains (PyStr.strLower (PyStr.pyStrip (PyStr.removeWordAll ctx.student a)))
             "private lesson") = true := by
      simp [hpl]
    rw [if_pos hpriv, if_pos ht, if_neg hne]

/-- Witness for C1's amended theorem at the concrete scenario. -/
theorem C1_witness :
    (StudentTT.resolveRowPairs ⟨"F3", "Flute", [("Jane Doe", "12B")], []⟩ [("F3", "Jane Doe")]
      = if StudentTT.ciLookup [("Jane Doe", "12B")] "Jane Doe" ≠ "" then
          "Private Lesson with " ++ "Jane Doe" ++ "\n("
            ++ StudentTT.ciLookup [("Jane Doe", "12B")] "Jane Doe" ++ ")"
        else "Private Lesson with " ++ "Jane Doe") ∧
    (StudentTT.resolveRowPairs ⟨"F3", "Flute", [("Jane Doe", "12B")], []⟩
      [("F3 Private Lesson", "Jane Doe")]
      = if StudentTT.ciLookup [("Jane Doe", "12B")] "Jane Doe" ≠ "" then
          PyStr.pyStrip (PyStr.removeWordAll "F3" "F3 Private Lesson") ++ "\n("
            ++ StudentTT.ciLookup [("Jane Doe", "12B")] "Jane Doe" ++ ")"
        else PyStr.pyStrip (PyStr.removeWordAll "F3" "F3 Private Lesson")) ∧
    StudentTT.resolveRowPairs ⟨"F3", "Flute", [("Jane Doe", "12B")], []⟩ [("F3", "Jane Doe")]
      = "Private Lesson with Jane Doe\n(12B)" :=
  ⟨(C1_private_lesson_amended ⟨"F3", "Flute", [("Jane Doe", "12B")], []⟩ [] [] "F3" "Jane Doe"
      (by simp) (by decide) (by decide) (by decide)).1 (by decide) (by decide) (by decide),
   (C1_private_lesson_amended ⟨"F3", "Flute", [("Jane Doe", "12B")], []⟩ [] []
      "F3 Private Lesson" "Jane Doe"
      (by simp) (by decide) (by decide) (by decide)).2.1 (by decide) (by decide) (by decide),
   (C1_private_lesson_amended ⟨"F3", "Flute", [("Jane Doe", "12B")], []⟩ [] [] "F3" "Jane Doe"
      (by simp) (by decide) (by decide) (by decide)).2.2⟩

/-- C2: when the winning cell of a non-day-6 row contains "masterclass"
(case-insensitively) and the student's id as a whole word, the row resolves
to the masterclass output: the cell text with all student ids removed and a
trailing parenthetical stripped, plus `"\n(<room>)"` where the room is the
chosen teacher's mapped room (`"TBD"` if unmapped); the owning teacher is an
occurring known teacher name of maximal length (longest-first scan), with
the column-header teacher as fallback when none occurs. -/
theorem C2_masterclass_resolution :
    ∀ (ctx : StudentTT.Ctx) (pre post : List (String × String)) (a t : String),
      (∀ p ∈ pre, StudentTT.cellRule ctx p.1 p.2 = none) →
      PyStr.strContains (PyStr.strLower a) "masterclass" = true →
      PyStr.wordSearch ctx.student a = true →
      (StudentTT.resolveRowPairs ctx (pre ++ (a, t) :: post)
        = StudentTT.mcDesc ctx a t) ∧
      (StudentTT.mcDesc ctx a t
        = PyStr.pyStrip (PyStr.stripTrailingParen (PyStr.pyStrip (PyStr.removeIds ctx.letter a)))
            ++ "\n("
            ++ StudentTT.assocGetD ctx.roomMappings
                 (StudentTT.mcPickTeacher (ctx.roomMappings.map (·.1)) a t) "TBD"
            ++ ")") ∧
      ((∃ k ∈ ctx.roomMappings.map (·.1), PyStr.strContains a k = true) →
        StudentTT.mcPickTeacher (ctx.roomMappings.map (·.1)) a t ∈ ctx.roomMappings.map (·.1) ∧
        PyStr.strContains a (StudentTT.mcPickTeacher (ctx.roomMappings.map (·.1)) a t) = true ∧
        ∀ k ∈ ctx.roomMappings.map (·.1), PyStr.strContains a k = true →
          k.length ≤ (StudentTT.mcPickTeacher (ctx.roomMappings.map (·.1)) a t).length) ∧
      ((∀ k ∈ ctx.roomMappings.map (·.1), PyStr.strContains a k = false) →
        StudentTT.mcPickTeacher (ctx.roomMappings.map (·.1)) a t = t) := by
  intro ctx pre post a t hpre hmc hws
  have ha : a ≠ "" := by
    intro h
    subst h
    rw [show PyStr.wordSearch ctx.student "" = false from rfl] at hws
    cases hws
  have h1 : ¬ ((a == "") = true) := by simp [ha]
  have hcond : (PyStr.strContains (PyStr.strLower a) "masterclass"
      && PyStr.wordSearch ctx.student a) = true := by simp [hmc, hws]
  have hwin : StudentTT.cellRule ctx a t = some (StudentTT.mcDesc ctx a t) := by
    rw [StudentTT.cellRule, if_neg h1, if_pos hcond]
  exact ⟨resolveRowPairs_winner ctx pre post a t _ hpre hwin, rfl,
    (mcPickTeacher_spec _ a t).1, (mcPickTeacher_spec _ a t).2⟩

/-- Witness for C2 on a concrete masterclass row (teacher-name scan hit)
and on an empty mapping (column-header fallback). -/
theorem C2_witness :
    (StudentTT.resolveRowPairs ⟨"F3", "Flute", [("Jo", "5"), ("John Lee", "101")], []⟩
        [("Flute MasterClass by John Lee F3, F4 (Rm 2)", "X")]
      = StudentTT.mcDesc ⟨"F3", "Flute", [("Jo", "5"), ("John Lee", "101")], []⟩
          "Flute MasterClass by John Lee F3, F4 (Rm 2)" "X") ∧
    (StudentTT.mcPickTeacher ["Jo", "John Lee"]
        "Flute MasterClass by John Lee F3, F4 (Rm 2)" "X" ∈ (["Jo", "John Lee"] : List String) ∧
      PyStr.strContains "Flute MasterClass by John Lee F3, F4 (Rm 2)"
        (StudentTT.mcPickTeacher ["Jo", "John Lee"]
          "Flute MasterClass by John Lee F3, F4 (Rm 2)" "X") = true ∧
      ∀ k ∈ (["Jo", "John Lee"] : List String),
        PyStr.strContains "Flute MasterClass by John Lee F3, F4 (Rm 2)" k = true →
        k.length ≤ (StudentTT.mcPickTeacher ["Jo", "John Lee"]
          "Flute MasterClass by John Lee F3, F4 (Rm 2)" "X").length) ∧
    StudentTT.mcPickTeacher [] "MasterClass F3" "T" = "T" := by
  have w1 := C2_masterclass_resolution ⟨"F3", "Flute", [("Jo", "5"), ("John Lee", "101")], []⟩
    [] [] "Flute MasterClass by John Lee F3, F4 (Rm 2)" "X" (by simp) (by decide) (by decide)
  have w2 := C2_masterclass_resolution ⟨"F3", "Flute", [], []⟩
    [] [] "MasterClass F3" "T" (by simp) (by decide) (by decide)
  exact ⟨w1.1, w1.2.2.1 (by decide), w2.2.2.2 (by simp)⟩

/-- C6 (counterexample): the cell `"Flute MasterClass"` contains
"masterclass", names no student id at all — so student F1's id does not
appear in it — yet the common-activity fallback emits it rather than
excluding it. -/
theorem C6_counterexample :
    PyStr.strContains (PyStr.strLower "Flute MasterClass") "masterclass" = true ∧
    PyStr.findIds 'F' "Flute MasterClass" = [] ∧
    (PyStr.findIds 'F' "Flute MasterClass").contains "F1" = false ∧
    StudentTT.resolveRowPairs ⟨"F1", "Flute", [], []⟩ [("Flute MasterClass", "T")]
      = "Flute MasterClass" := by
  refine ⟨by decide, by decide, by decide, by decide⟩

/-- C6 (amended): in the common-activity fallback, a masterclass cell is
skipped exactly when it names at least one student id and the target
student's id is not among them; a non-excluded, non-empty cell containing
an allow-listed activity name is emitted unchanged in full; and when no
cascade rule matched any cell, the row resolves to the fallback's result
(empty when nothing is found). -/
theorem C6_common_fallback_amended :
    ∀ (ctx : StudentTT.Ctx) (c : String) (rest : List String),
      (StudentTT.mcExcluded ctx c = true →
        StudentTT.findCommon ctx (c :: rest) = StudentTT.findCommon ctx rest) ∧
      (StudentTT.mcExcluded ctx c = true ↔
        (PyStr.strContains (PyStr.strLower c) "masterclass" = true ∧
         PyStr.findIds ctx.letter c ≠ [] ∧
         (PyStr.findIds ctx.letter c).contains ctx.student = false)) ∧
      (c ≠ "" → StudentTT.mcExcluded ctx c = false →
        StudentTT.commonActivities.any (fun ca => PyStr.strContains c ca) = true →
        StudentTT.findCommon ctx (c :: rest) = some c) ∧
      (∀ pairs : List (String × String),
        StudentTT.firstRuleMatch ctx pairs = none →
        StudentTT.resolveRowPairs ctx pairs
          = (StudentTT.findCommon ctx (pairs.map (·.1))).getD "") := by
  intro ctx c rest
  refine ⟨?_, ?_, ?_, ?_⟩
  · intro hexc
    have hc : ¬ ((c == "") = true) := by
      intro h
      rw [beq_iff_eq] at h
      subst h
      rw [show StudentTT.mcExcluded ctx "" = false from rfl] at hexc
      cases hexc
    rw [StudentTT.findCommon, if_neg hc, if_pos hexc]
  · unfold StudentTT.mcExcluded
    constructor
    · intro h
      rcases Bool.and_eq_true_iff.mp h with ⟨h1, h2⟩
      rcases Bool.and_eq_true_iff.mp h2 with ⟨h3, h4⟩
      refine ⟨h1, ?_, ?_⟩
      · simpa [List.isEmpty_iff] using h3
      · simpa using h4
    · rintro ⟨h1, h2, h3⟩
      rw [h1]
      simp only [Bool.true_and]
      refine Bool.and_eq_true_iff.mpr ⟨?_, ?_⟩
      · simpa [List.isEmpty_iff] using h2
      · simpa using h3
  · intro hc hexc hany
    have hc' : ¬ ((c == "") = true) := by simp [hc]
    rw [StudentTT.findCommon, if_neg hc', if_neg (by simp [hexc]), if_pos hany]
  · intro pairs hnone
    unfold StudentTT.resolveRowPairs
    rw [hnone]

/-- Witness for C6's amended theorem: an excluded masterclass cell is
skipped, and a plain allow-listed cell is emitted in full. -/
theorem C6_amended_witness :
    StudentTT.findCommon ⟨"F1", "Flute", [], []⟩ ["Flute MasterClass F2", "Lunch Break"]
      = StudentTT.findCommon ⟨"F1", "Flute", [], []⟩ ["Lunch Break"] ∧
    StudentTT.findCommon ⟨"F1", "Flute", [], []⟩ ["Lunch Break"] = some "Lunch Break" ∧
    StudentTT.resolveRowPairs ⟨"F1", "Flute", [], []⟩ [("zzz", "T")]
      = (StudentTT.findCommon ⟨"F1", "Flute", [], []⟩ ["zzz"]).getD "" :=
  ⟨(C6_common_fallback_amended ⟨"F1", "Flute", [], []⟩ "Flute MasterClass F2"
      ["Lunch Break"]).1 (by decide),
   (C6_common_fallback_amended ⟨"F1", "Flute", [], []⟩ "Lunch Break" []).2.2.1
      (by decide) (by decide) (by decide),
   by
    have h := (C6_common_fallback_amended ⟨"F1", "Flute", [], []⟩ "" []).2.2.2
      [("zzz", "T")] (by decide)
    simpa using h⟩

/-- On a non-day-6 day, a row leaves the check-in flag unchanged and
contributes exactly one entry unless its time is missing or filtered. -/
theorem studentRowEntries_nonDay6 (ctx : StudentTT.Ctx) (ts : List String) (d : Nat)
    (flag : Bool) (r : StudentTT.Row) (hd : d ≠ 5) :
    StudentTT.studentRowEntries ctx ts d flag r
      = (flag, match r.time with
          | none => []
          | some t =>
            if d < 5 && 1020 ≤ t then []
            else [(t, StudentTT.resolveRowPairs ctx
                (StudentTT.zipT (r.cells.map PyStr.pyStrip) ts))]) := by
  obtain ⟨tm, cells⟩ := r
  cases tm with
  | none => rfl
  | some t =>
    simp only [StudentTT.studentRowEntries]
    by_cases h : (decide (d < 5) && decide (1020 ≤ t)) = true
    · rw [if_pos h, if_pos h]
    · rw [if_neg h, if_neg h, if_neg (show ¬ (d + 1 = 6) from by omega)]

/-- On a non-day-6 day the day fold is a `filterMap` of the per-row step. -/
theorem studentDayAux_nonDay6 (ctx : StudentTT.Ctx) (ts : List String) (d : Nat)
    (hd : d ≠ 5) :
    ∀ (rows : List StudentTT.Row) (flag : Bool),
      StudentTT.studentDayAux ctx ts d flag rows
        = rows.filterMap fun r =>
            match r.time with
            | none => none
            | some t =>
              if d < 5 && 1020 ≤ t then none
              else some (t, StudentTT.resolveRowPairs ctx
                  (StudentTT.zipT (r.cells.map PyStr.pyStrip) ts))
  | [], _ => rfl
  | r :: rest, flag => by
    rw [StudentTT.studentDayAux, studentRowEntries_nonDay6 ctx ts d flag r hd,
      List.filterMap_cons]
    cases htm : r.time with
    | none =>
      simpa using studentDayAux_nonDay6 ctx ts d hd rest flag
    | some t =>
      dsimp only
      by_cases h : (decide (d < 5) && decide (1020 ≤ t)) = true
      · rw [if_pos h, if_pos h]
        simpa using studentDayAux_nonDay6 ctx ts d hd rest flag
      · rw [if_neg h, if_neg h]
        simpa using studentDayAux_nonDay6 ctx ts d hd rest flag

/-- Counting after a `filterMap`. -/
theorem countP_filterMap {α β : Type} (f : α → Option β) (p : β → Bool) :
    ∀ l : List α,
      (l.filterMap f).countP p = l.countP fun a => ((f a).map p).getD false
  | [] => rfl
  | a :: l => by
    rw [List.filterMap_cons]
    cases h : f a with
    | none => simp [List.countP_cons, h, countP_filterMap f p l]
    | some b => simp [List.countP_cons, h, countP_filterMap f p l]

/-- C9: for every non-day-6 day, the day's schedule is exactly a
`filterMap` of the rows — each row whose time normalises and survives the
time-window filter appends exactly one entry (the cascade's result, which
always produces a string, possibly empty), and absence can only arise from
the time filter; consequently the number of entries at a given time equals
the number of surviving rows with that time, and it is exactly one when row
times are distinct. -/
theorem C9_one_entry_per_surviving_row :
    ∀ (ctx : StudentTT.Ctx) (teachers : List String) (d : Nat)
      (rows : List StudentTT.Row),
      d ≠ 5 →
      (StudentTT.studentDay ctx teachers d rows
        = rows.filterMap fun r =>
            match r.time with
            | none => none
            | some t =>
              if d < 5 && 1020 ≤ t then none
              else some (t, StudentTT.resolveRowPairs ctx
                  (StudentTT.zipT (r.cells.map PyStr.pyStrip)
                    (teachers.map PyStr.pyStrip)))) ∧
      (∀ t0 : Nat,
        (StudentTT.studentDay ctx teachers d rows).countP (fun e => e.1 == t0)
          = rows.countP fun r =>
              match r.time with
              | none => false
              | some t => !(decide (d < 5) && decide (1020 ≤ t)) && t == t0) ∧
      (∀ t0 : Nat,
        (rows.filterMap StudentTT.Row.time).Nodup →
        (∃ r ∈ rows, r.time = some t0 ∧ (decide (d < 5) && decide (1020 ≤ t0)) = false) →
        (StudentTT.studentDay ctx teachers d rows).countP (fun e => e.1 == t0) = 1) := by
  intro ctx teachers d rows hd
  have hfm := studentDayAux_nonDay6 ctx (teachers.map PyStr.pyStrip) d hd rows false
  have hcnt : ∀ t0 : Nat,
      (StudentTT.studentDay ctx teachers d rows).countP (fun e => e.1 == t0)
        = rows.countP fun r =>
            match r.time with
            | none => false
            | some t => !(decide (d < 5) && decide (1020 ≤ t)) && t == t0 := by
    intro t0
    rw [show StudentTT.studentDay ctx teachers d rows = _ from hfm,
      countP_filterMap]
    refine List.countP_congr ?_
    intro r _
    cases htm : r.time with
    | none => simp
    | some t =>
      dsimp only
      by_cases h : (decide (d < 5) && decide (1020 ≤ t)) = true
      · rw [if_pos h, h]
        simp
      · rw [if_neg h, Bool.not_eq_true] at *
        rw [h]
        simp
  refine ⟨hfm, hcnt, ?_⟩
  rintro t0 hnd ⟨r0, hr0, htm0, hsurv⟩
  rw [hcnt t0]
  apply le_antisymm
  · have hle1 : rows.countP (fun r => r.time == some t0) ≤ 1 := by
      have hc : (rows.filterMap StudentTT.Row.time).count t0
          = rows.countP fun r => r.time == some t0 := by
        rw [List.count_eq_countP, countP_filterMap]
        refine List.countP_congr ?_
        intro r _
        cases r.time <;> simp
      calc rows.countP (fun r => r.time == some t0)
          = (rows.filterMap StudentTT.Row.time).count t0 := hc.symm
        _ ≤ 1 := List.nodup_iff_count_le_one.mp hnd t0
    refine le_trans (List.countP_mono_left ?_) hle1
    intro r _ hr
    cases htm : r.time with
    | none => rw [htm] at hr; cases hr
    | some t =>
      rw [htm] at hr
      dsimp only at hr
      rcases Bool.and_eq_true_iff.mp hr with ⟨_, ht⟩
      have : t = t0 := by simpa using ht
      subst this
      simp [htm]
  · have : 0 < rows.countP fun r =>
        match r.time with
        | none => false
        | some t => !(decide (d < 5) && decide (1020 ≤ t)) && t == t0 := by
      refine List.countP_pos_iff.mpr ⟨r0, hr0, ?_⟩
      rw [htm0]
      dsimp only
      rw [hsurv]
      simp
    omega

/-- A row of all-empty cells finds no common activity. -/
theorem findCommon_all_empty (ctx : StudentTT.Ctx) :
    ∀ acts : List String, acts.find? (fun a => !(a == "")) = none →
      StudentTT.findCommon ctx acts = none
  | [], _ => rfl
  | a :: rest, h => by
    rw [List.find?_cons] at h
    cases ha : (!(a == "")) with
    | true => rw [ha] at h; cases h
    | false =>
      rw [ha] at h
      have ha' : (a == "") = true := by simpa using ha
      rw [StudentTT.findCommon, if_pos ha']
      exact findCommon_all_empty ctx rest h

/-- Day-6 per-row behaviour: the updated flag is `flag || rowTriggers row`,
and the check-in entries contributed are exactly the four fixed ones when
the row triggers with the flag still unset, and none otherwise. -/
theorem studentRowEntries_day6_spec (ctx : StudentTT.Ctx) (ts : List String)
    (flag : Bool) (row : StudentTT.Row) :
    (StudentTT.studentRowEntries ctx ts 5 flag row).1
      = (flag || StudentTT.rowTriggers row) ∧
    (StudentTT.studentRowEntries ctx ts 5 flag row).2.filter
        (fun e => e.2 == StudentTT.checkInText)
      = if !flag && StudentTT.rowTriggers row then
          [(600, StudentTT.checkInText), (615, StudentTT.checkInText),
           (630, StudentTT.checkInText), (645, StudentTT.checkInText)]
        else [] := by
  obtain ⟨tm, cells⟩ := row
  cases tm with
  | none => simp [StudentTT.studentRowEntries, StudentTT.rowTriggers]
  | some t =>
    simp only [StudentTT.studentRowEntries, StudentTT.rowTriggers]
    rw [if_neg (show ¬ ((decide (5 < 5) && decide (1020 ≤ t)) = true) from by simp),
      if_pos trivial]
    by_cases h1020 : 1020 ≤ t
    · rw [if_pos h1020, if_pos h1020]
      simp
    · rw [if_neg h1020, if_neg h1020]
      by_cases h990 : 990 ≤ t
      · rw [if_pos h990, if_pos h990]
        refine ⟨by simp, ?_⟩
        have : (StudentTT.freeTimeBlock == StudentTT.checkInText) = false := by decide
        simp [this]
      · rw [if_neg h990, if_neg h990]
        cases hfind : (cells.map PyStr.pyStrip).find? (fun a => !(a == "")) with
        | none =>
          dsimp only
          have hfc := findCommon_all_empty ctx (cells.map PyStr.pyStrip) hfind
          rw [hfc]
          refine ⟨by simp, ?_⟩
          have : (("" : String) == StudentTT.checkInText) = false := by decide
          simp [this]
        | some a =>
          dsimp only
          cases hkw : PyStr.strContains a "Check in Maritime Museum" with
          | true => cases flag <;> simp
          | false =>
            have hachk : (a == StudentTT.checkInText) = false := by
              cases hbe : (a == StudentTT.checkInText) with
              | false => rfl
              | true =>
                have ha : a = StudentTT.checkInText := by simpa using hbe
                subst ha
                rw [show PyStr.strContains StudentTT.checkInText
                    "Check in Maritime Museum" = true from by decide] at hkw
                cases hkw
            simp [hachk]

/-- Over a whole day-6 fold, the check-in entries are exactly the four
fixed ones when some row triggers and the flag starts unset, and none
otherwise. -/
theorem studentDayAux_day6_checkin (ctx : StudentTT.Ctx) (ts : List String) :
    ∀ (rows : List StudentTT.Row) (flag : Bool),
      (StudentTT.studentDayAux ctx ts 5 flag rows).filter
          (fun e => e.2 == StudentTT.checkInText)
        = if !flag && rows.any StudentTT.rowTriggers then
            [(600, StudentTT.checkInText), (615, StudentTT.checkInText),
             (630, StudentTT.checkInText), (645, StudentTT.checkInText)]
          else []
  | [], flag => by simp [StudentTT.studentDayAux]
  | r :: rest, flag => by
    have hspec := studentRowEntries_day6_spec ctx ts flag r
    rw [StudentTT.studentDayAux]
    rw [List.filter_append, hspec.2,
      show (StudentTT.studentRowEntries ctx ts 5 flag r).1 = _ from hspec.1,
      studentDayAux_day6_checkin ctx ts rest (flag || StudentTT.rowTriggers r)]
    cases flag <;> cases htr : StudentTT.rowTriggers r <;> simp [htr]

/-- C7: on day 6, a triggering check-in row yields exactly the four fixed
10:00–10:45 entries carrying the composite description, exactly once per
day even when the keyword appears in several rows; every other processed
day-6 row contributes its first non-empty cell verbatim. -/
theorem C7_day6_checkin_expansion :
    ∀ (ctx : StudentTT.Ctx) (ts : List String) (rows : List StudentTT.Row)
      (flag : Bool) (row : StudentTT.Row) (t : Nat) (a : String),
      ((StudentTT.studentDay ctx ts 5 rows).filter
          (fun e => e.2 == StudentTT.checkInText)
        = if rows.any StudentTT.rowTriggers then
            [(600, StudentTT.checkInText), (615, StudentTT.checkInText),
             (630, StudentTT.checkInText), (645, StudentTT.checkInText)]
          else []) ∧
      (row.time = some t → t < 990 →
        (row.cells.map PyStr.pyStrip).find? (fun x => !(x == "")) = some a →
        PyStr.strContains a "Check in Maritime Museum" = false →
        StudentTT.studentRowEntries ctx ts 5 flag row = (flag, [(t, a)])) ∧
      (row.time = some t → t < 990 →
        (row.cells.map PyStr.pyStrip).find? (fun x => !(x == "")) = some a →
        PyStr.strContains a "Check in Maritime Museum" = true →
        StudentTT.studentRowEntries ctx ts 5 flag row
          = if flag then (flag, [])
            else (true, [(600, StudentTT.checkInText), (615, StudentTT.checkInText),
              (630, StudentTT.checkInText), (645, StudentTT.checkInText)])) := by
  intro ctx ts rows flag row t a
  refine ⟨?_, ?_, ?_⟩
  · have h := studentDayAux_day6_checkin ctx (ts.map PyStr.pyStrip) rows false
    simpa using h
  · intro htm hlt hfind hkw
    obtain ⟨tm, cells⟩ := row
    cases htm
    simp only [StudentTT.studentRowEntries]
    rw [if_neg (show ¬ ((decide (5 < 5) && decide (1020 ≤ t)) = true) from by simp),
      if_pos trivial,
      if_neg (show ¬ 1020 ≤ t from by omega),
      if_neg (show ¬ 990 ≤ t from by omega)]
    simp only at hfind
    rw [hfind]
    dsimp only
    rw [if_neg (by simp [hkw])]
  · intro htm hlt hfind hkw
    obtain ⟨tm, cells⟩ := row
    cases htm
    simp only [StudentTT.studentRowEntries]
    rw [if_neg (show ¬ ((decide (5 < 5) && decide (1020 ≤ t)) = true) from by simp),
      if_pos trivial,
      if_neg (show ¬ 1020 ≤ t from by omega),
      if_neg (show ¬ 990 ≤ t from by omega)]
    simp only at hfind
    rw [hfind]
    dsimp only
    rw [if_pos hkw]

/-- Witness for C7: a day with two keyword rows still yields the four fixed
entries once; a plain row contributes its first non-empty cell. -/
theorem C7_witness :
    ((StudentTT.studentDay ⟨"F3", "Flute", [], []⟩ [] 5
        [⟨some 480, ["", "Check in Maritime Museum"]⟩,
         ⟨some 495, ["Check in Maritime Museum later"]⟩,
         ⟨some 510, ["Lunch"]⟩]).filter
        (fun e => e.2 == StudentTT.checkInText)
      = [(600, StudentTT.checkInText), (615, StudentTT.checkInText),
         (630, StudentTT.checkInText), (645, StudentTT.checkInText)]) ∧
    StudentTT.studentRowEntries ⟨"F3", "Flute", [], []⟩ [] 5 false
        ⟨some 510, ["Lunch"]⟩ = (false, [(510, "Lunch")]) ∧
    StudentTT.studentRowEntries ⟨"F3", "Flute", [], []⟩ [] 5 true
        ⟨some 495, ["Check in Maritime Museum later"]⟩ = (true, []) := by
  have w := C7_day6_checkin_expansion ⟨"F3", "Flute", [], []⟩ []
    [⟨some 480, ["", "Check in Maritime Museum"]⟩,
     ⟨some 495, ["Check in Maritime Museum later"]⟩,
     ⟨some 510, ["Lunch"]⟩] false ⟨some 510, ["Lunch"]⟩ 510 "Lunch"
  have w2 := C7_day6_checkin_expansion ⟨"F3", "Flute", [], []⟩ []
    [] true ⟨some 495, ["Check in Maritime Museum later"]⟩ 495
    "Check in Maritime Museum later"
  refine ⟨?_, ?_, ?_⟩
  · have h := w.1
    rw [if_pos (by decide)] at h
    exact h
  · exact w.2.1 rfl (by decide) (by decide) (by decide)
  · have h := w2.2.2 rfl (by decide) (by decide) (by decide)
    rw [if_pos rfl] at h
    exact h

/-- A processed day-6 row (time before 16:30) without the check-in keyword
contributes its first non-empty cell verbatim. -/
theorem studentRowEntries_day6_verbatim (ctx : StudentTT.Ctx) (ts : List String)
    (flag : Bool) (row : StudentTT.Row) (t : Nat) (a : String)
    (htm : row.time = some t) (hlt : t < 990)
    (hfind : (row.cells.map PyStr.pyStrip).find? (fun x => !(x == "")) = some a)
    (hkw : PyStr.strContains a "Check in Maritime Museum" = false) :
    StudentTT.studentRowEntries ctx ts 5 flag row = (flag, [(t, a)]) := by
  obtain ⟨tm, cells⟩ := row
  cases htm
  simp only [StudentTT.studentRowEntries]
  rw [if_neg (show ¬ ((decide (5 < 5) && decide (1020 ≤ t)) = true) from by simp),
    if_pos trivial,
    if_neg (show ¬ 1020 ≤ t from by omega),
    if_neg (show ¬ 990 ≤ t from by omega)]
  simp only at hfind
  rw [hfind]
  dsimp only
  rw [if_neg (by simp [hkw])]

/-- C8: a day-6 row whose time is before 11:00 adds nothing in the
teacher-resolution variant, while the same time is still processed by the
student-resolution variant (here: a non-keyword row contributes its first
non-empty cell). -/
theorem C8_day6_morning_asymmetry :
    ∀ (tctx : TeacherTT.Ctx) (colIdx : Nat) (trow : TeacherTT.Row)
      (ctx : StudentTT.Ctx) (ts : List String) (flag : Bool)
      (srow : StudentTT.Row) (t : Nat) (a : String),
      trow.time = some t → t < 660 →
      TeacherTT.teacherRowStep tctx true colIdx trow = none ∧
      (srow.time = some t →
        (srow.cells.map PyStr.pyStrip).find? (fun x => !(x == "")) = some a →
        PyStr.strContains a "Check in Maritime Museum" = false →
        StudentTT.studentRowEntries ctx ts 5 flag srow = (flag, [(t, a)])) := by
  intro tctx colIdx trow ctx ts flag srow t a htm hlt
  constructor
  · obtain ⟨tm, cells⟩ := trow
    cases htm
    simp only [TeacherTT.teacherRowStep]
    rw [if_neg (show ¬ 1320 ≤ t from by omega),
      if_pos (show (true && decide (t < 660)) = true from by simp [hlt])]
  · intro hstm hfind hkw
    exact studentRowEntries_day6_verbatim ctx ts flag srow t a hstm (by omega) hfind hkw

/-- Witness for C8 at 10:00 (= 600 minutes). -/
theorem C8_witness :
    TeacherTT.teacherRowStep ⟨"Flute", [], []⟩ true 1 ⟨some 600, ["Lunch"]⟩ = none ∧
    StudentTT.studentRowEntries ⟨"F3", "Flute", [], []⟩ [] 5 false
      ⟨some 600, ["Lunch"]⟩ = (false, [(600, "Lunch")]) := by
  have w := C8_day6_morning_asymmetry ⟨"Flute", [], []⟩ 1 ⟨some 600, ["Lunch"]⟩
    ⟨"F3", "Flute", [], []⟩ [] false ⟨some 600, ["Lunch"]⟩ 600 "Lunch" rfl (by decide)
  exact ⟨w.1, w.2 rfl (by decide) (by decide)⟩

/-- After `m[k] = v`, looking up `k` finds `(k, v)`. -/
theorem find?_updMap_self (k : Nat) (v : String) :
    ∀ m : List (Nat × String),
      (TeacherTT.updMap m k v).find? (fun p => p.1 == k) = some (k, v) := by
  have hmap : ∀ m : List (Nat × String), m.any (fun p => p.1 == k) = true →
      (m.map fun p => if p.1 == k then (k, v) else p).find?
        (fun p => p.1 == k) = some (k, v) := by
    intro m
    induction m with
    | nil => intro h; cases h
    | cons p rest ih =>
      intro h
      rw [List.map_cons, List.find?_cons]
      by_cases hp : (p.1 == k) = true
      · rw [if_pos hp]
        simp
      · rw [if_neg hp]
        have hp' : (p.1 == k) = false := by simpa using hp
        rw [hp']
        rw [List.any_cons, hp', Bool.false_or] at h
        exact ih h
  have happ : ∀ m : List (Nat × String), m.any (fun p => p.1 == k) = false →
      (m ++ [(k, v)]).find? (fun p => p.1 == k) = some (k, v) := by
    intro m
    induction m with
    | nil => intro _; simp
    | cons p rest ih =>
      intro h
      rw [List.any_cons] at h
      rcases Bool.or_eq_false_iff.mp h with ⟨h1, h2⟩
      rw [List.cons_append, List.find?_cons, h1]
      exact ih h2
  intro m
  unfold TeacherTT.updMap
  by_cases h : m.any (fun p => p.1 == k) = true
  · rw [if_pos h]
    exact hmap m h
  · rw [if_neg h]
    exact happ m (Bool.eq_false_iff.mpr h)

/-- `m[k] = v` does not change the lookup of any other key. -/
theorem find?_updMap_other (k : Nat) (v : String) (q : Nat) (hq : q ≠ k) :
    ∀ m : List (Nat × String),
      (TeacherTT.updMap m k v).find? (fun p => p.1 == q)
        = m.find? (fun p => p.1 == q) := by
  have hmap : ∀ m : List (Nat × String),
      (m.map fun p => if p.1 == k then (k, v) else p).find? (fun p => p.1 == q)
        = m.find? (fun p => p.1 == q) := by
    intro m
    induction m with
    | nil => rfl
    | cons p rest ih =>
      rw [List.map_cons, List.find?_cons, List.find?_cons]
      by_cases hp : (p.1 == k) = true
      · rw [if_pos hp]
        have hpk : p.1 = k := by simpa using hp
        have h1 : ((k, v).1 == q) = false := by simp; omega
        have h2 : (p.1 == q) = false := by rw [hpk]; simp; omega
        rw [h1, h2]
        exact ih
      · rw [if_neg hp]
        by_cases hq2 : (p.1 == q) = true
        · rw [hq2]
        · have hq2' : (p.1 == q) = false := by simpa using hq2
          rw [hq2']
          exact ih
  intro m
  unfold TeacherTT.updMap
  by_cases h : m.any (fun p => p.1 == k) = true
  · rw [if_pos h]
    exact hmap m
  · rw [if_neg h]
    rw [List.find?_append]
    have h1 : ([(k, v)].find? fun p => p.1 == q) = none := by simp; omega
    rw [h1]
    cases m.find? fun p => p.1 == q <;> rfl

/-- Folding `m[e] = v` over a list of keys makes every key of the list
(and every key already mapping to `v`) look up to `v`. -/
theorem find?_foldUpd (v : String) :
    ∀ (ks : List Nat) (m : List (Nat × String)) (k : Nat),
      (m.find? (fun p => p.1 == k) = some (k, v) ∨ k ∈ ks) →
      (ks.foldl (fun acc e => TeacherTT.updMap acc e v) m).find?
          (fun p => p.1 == k) = some (k, v)
  | [], m, k, h => by
    rcases h with h | h
    · exact h
    · cases h
  | e :: rest, m, k, h => by
    rw [List.foldl_cons]
    apply find?_foldUpd v rest (TeacherTT.updMap m e v) k
    by_cases hke : k = e
    · subst hke
      exact Or.inl (find?_updMap_self k v m)
    · rcases h with h | h
      · exact Or.inl ((find?_updMap_other e v k hke m).symm ▸ h)
      · rcases List.mem_cons.mp h with h | h
        · exact absurd h hke
        · exact Or.inr h

/-- Membership under the stable insertion by time key. -/
theorem mem_insertByKey (x y : Nat × String) :
    ∀ m : List (Nat × String),
      (y ∈ TeacherTT.insertByKey x m ↔ y = x ∨ y ∈ m)
  | [] => by simp [TeacherTT.insertByKey]
  | z :: zs => by
    rw [TeacherTT.insertByKey]
    by_cases h : x.1 ≤ z.1
    · rw [if_pos h]
      simp
    · rw [if_neg h]
      rw [List.mem_cons, List.mem_cons, mem_insertByKey x y zs]
      tauto

/-- Membership under the sort by time key. -/
theorem mem_sortByKey (y : Nat × String) :
    ∀ m : List (Nat × String), (y ∈ TeacherTT.sortByKey m ↔ y ∈ m)
  | [] => Iff.rfl
  | z :: zs => by
    show y ∈ TeacherTT.insertByKey z (TeacherTT.sortByKey zs) ↔ _
    rw [mem_insertByKey, mem_sortByKey y zs, List.mem_cons]

/-- `m[k] = v` preserves distinctness of keys. -/
theorem nodupKeys_updMap (m : List (Nat × String)) (k : Nat) (v : String)
    (h : (m.map Prod.fst).Nodup) :
    ((TeacherTT.updMap m k v).map Prod.fst).Nodup := by
  unfold TeacherTT.updMap
  by_cases ha : m.any (fun p => p.1 == k) = true
  · rw [if_pos ha]
    have hkeys : (m.map fun p => if p.1 == k then (k, v) else p).map Prod.fst
        = m.map Prod.fst := by
      rw [List.map_map]
      apply List.map_congr_left
      intro p _
      show Prod.fst (if (p.1 == k) = true then (k, v) else p) = p.1
      by_cases hpk : (p.1 == k) = true
      · rw [if_pos hpk]
        exact ((by simpa using hpk : p.1 = k)).symm
      · rw [if_neg hpk]
    rw [hkeys]
    exact h
  · rw [if_neg ha, List.map_append]
    refine List.Nodup.append h (List.nodup_singleton k) ?_
    intro x hx hx2
    rcases List.mem_singleton.mp hx2 with rfl
    rcases List.mem_map.mp hx with ⟨p, hp, hpk⟩
    exact ha (List.any_eq_true.mpr ⟨p, hp, by simp [hpk]⟩)

/-- A fold whose step preserves key-distinctness preserves it. -/
theorem nodupKeys_foldl {β : Type} (step : List (Nat × String) → β → List (Nat × String))
    (hstep : ∀ m e, (m.map Prod.fst).Nodup → ((step m e).map Prod.fst).Nodup) :
    ∀ (l : List β) (m : List (Nat × String)),
      (m.map Prod.fst).Nodup → ((l.foldl step m).map Prod.fst).Nodup
  | [], _, h => h
  | e :: rest, m, h => by
    rw [List.foldl_cons]
    exact nodupKeys_foldl step hstep rest (step m e) (hstep m e h)

/-- In a map with distinct keys, a key determines its value. -/
theorem nodupKeys_value_unique :
    ∀ m : List (Nat × String), (m.map Prod.fst).Nodup →
      ∀ (k : Nat) (v1 v2 : String), (k, v1) ∈ m → (k, v2) ∈ m → v1 = v2
  | [], _, _, _, _, h1, _ => by cases h1
  | p :: rest, h, k, v1, v2, h1, h2 => by
    rw [List.map_cons] at h
    rcases List.nodup_cons.mp h with ⟨hp, hrest⟩
    rcases List.mem_cons.mp h1 with h1 | h1 <;> rcases List.mem_cons.mp h2 with h2 | h2
    · rw [← h1] at h2
      exact congrArg Prod.snd h2.symm
    · exfalso
      apply hp
      rw [← h1]
      exact List.mem_map.mpr ⟨(k, v2), h2, rfl⟩
    · exfalso
      apply hp
      rw [← h2]
      exact List.mem_map.mpr ⟨(k, v1), h1, rfl⟩
    · exact nodupKeys_value_unique rest hrest k v1 v2 h1 h2

/-- The evening placeholder renders as an empty cell. -/
theorem renderTeacherCell_evening (m : List (String × String))
    (hm : ∀ p ∈ m, p.1 ≠ "") :
    TeacherTT.renderTeacherCell m TeacherTT.eveningMergeBlock = "" := by
  cases m with
  | nil => rfl
  | cons p rest =>
    have h : TeacherTT.renderTeacherCell (p :: rest) TeacherTT.eveningMergeBlock
        = (p :: rest).foldl (fun s q => PyStr.pyReplace s q.1 q.2) "" := rfl
    rw [h]
    exact foldReplace_empty _ hm

/-- C10: slots parsing to 22:00 or later are dropped; on every weekday the
twelve 19:00–21:45 slots are present in the teacher's daily schedule, set
(overriding any grid content) to the evening placeholder — or, on Friday
for the special teachers, to "Transfer to Mandarin Oriental" — and the
placeholder renders as an empty cell. -/
theorem C10_teacher_evening_block :
    ∀ (tctx : TeacherTT.Ctx) (isDay6 : Bool) (colIdx : Nat) (row : TeacherTT.Row)
      (t d : Nat) (teacher : String) (rows : List TeacherTT.Row) (et : Nat)
      (m : List (String × String)),
      (row.time = some t → 1320 ≤ t →
        TeacherTT.teacherRowStep tctx isDay6 colIdx row = none) ∧
      (d < 5 → et ∈ TeacherTT.eveningTimes →
        ((et, if (d == 4) && TeacherTT.specialFridayTeachers.contains teacher then
              "Transfer to Mandarin Oriental" else TeacherTT.eveningMergeBlock)
            ∈ TeacherTT.teacherDaySchedule tctx d colIdx teacher rows) ∧
        (∀ v', (et, v') ∈ TeacherTT.teacherDaySchedule tctx d colIdx teacher rows →
          v' = if (d == 4) && TeacherTT.specialFridayTeachers.contains teacher then
              "Transfer to Mandarin Oriental" else TeacherTT.eveningMergeBlock)) ∧
      ((∀ p ∈ m, p.1 ≠ "") →
        TeacherTT.renderTeacherCell m TeacherTT.eveningMergeBlock = "") := by
  intro tctx isDay6 colIdx row t d teacher rows et m
  refine ⟨?_, ?_, renderTeacherCell_evening m⟩
  · intro htm ht
    obtain ⟨tm, cells⟩ := row
    cases htm
    simp only [TeacherTT.teacherRowStep]
    rw [if_pos ht]
  · intro hd het
    have hnd6 : (d + 1 == 6) = false := by
      simp only [beq_eq_false_iff_ne, ne_eq]
      omega
    have hsched : TeacherTT.teacherDaySchedule tctx d colIdx teacher rows
        = TeacherTT.sortByKey (TeacherTT.eveningTimes.foldl
            (fun acc e => TeacherTT.updMap acc e
              (if (d == 4) && TeacherTT.specialFridayTeachers.contains teacher then
                "Transfer to Mandarin Oriental" else TeacherTT.eveningMergeBlock))
            (rows.foldl (fun acc r =>
              match TeacherTT.teacherRowStep tctx false colIdx r with
              | none => acc
              | some (t, a) => TeacherTT.updMap acc t a) [])) := by
      unfold TeacherTT.teacherDaySchedule
      rw [hnd6]
      rfl
    have hkey := find?_foldUpd
      (if (d == 4) && TeacherTT.specialFridayTeachers.contains teacher then
        "Transfer to Mandarin Oriental" else TeacherTT.eveningMergeBlock)
      TeacherTT.eveningTimes
      (rows.foldl (fun acc r =>
        match TeacherTT.teacherRowStep tctx false colIdx r with
        | none => acc
        | some (t, a) => TeacherTT.updMap acc t a) [])
      et (Or.inr het)
    have hmem2 := List.mem_of_find?_eq_some hkey
    have hnodup : ((TeacherTT.eveningTimes.foldl
        (fun acc e => TeacherTT.updMap acc e
          (if (d == 4) && TeacherTT.specialFridayTeachers.contains teacher then
            "Transfer to Mandarin Oriental" else TeacherTT.eveningMergeBlock))
        (rows.foldl (fun acc r =>
          match TeacherTT.teacherRowStep tctx false colIdx r with
          | none => acc
          | some (t, a) => TeacherTT.updMap acc t a) [])).map Prod.fst).Nodup := by
      apply nodupKeys_foldl _ (fun m2 e h => nodupKeys_updMap m2 e _ h)
      apply nodupKeys_foldl _ ?_ rows [] (by simp)
      intro m2 r h
      cases hstep : TeacherTT.teacherRowStep tctx false colIdx r with
      | none => exact h
      | some pr =>
        obtain ⟨tt, aa⟩ := pr
        exact nodupKeys_updMap m2 tt aa h
    constructor
    · rw [hsched]
      exact (mem_sortByKey _ _).mpr hmem2
    · intro v' hv'
      rw [hsched] at hv'
      have hv2 := (mem_sortByKey _ _).mp hv'
      exact nodupKeys_value_unique _ hnodup et v' _ hv2 hmem2

/-- Witness for C10: a weekday and a Friday special-teacher schedule both
contain the 19:00 slot with the prescribed text; a 22:00 row is dropped;
the placeholder renders empty. -/
theorem C10_witness :
    ((1140, TeacherTT.eveningMergeBlock)
        ∈ TeacherTT.teacherDaySchedule ⟨"Flute", [], []⟩ 0 1 "X" [⟨some 540, ["F1"]⟩]) ∧
    ((1140, "Transfer to Mandarin Oriental")
        ∈ TeacherTT.teacherDaySchedule ⟨"Flute", [], []⟩ 4 1 "Liya HUANG"
            [⟨some 540, ["F1"]⟩]) ∧
    TeacherTT.teacherRowStep ⟨"Flute", [], []⟩ false 1 ⟨some 1320, ["x"]⟩ = none ∧
    TeacherTT.renderTeacherCell [("Room A", "1")] TeacherTT.eveningMergeBlock = "" := by
  have w1 := C10_teacher_evening_block ⟨"Flute", [], []⟩ false 1 ⟨some 1320, ["x"]⟩
    1320 0 "X" [⟨some 540, ["F1"]⟩] 1140 [("Room A", "1")]
  have w2 := C10_teacher_evening_block ⟨"Flute", [], []⟩ false 1 ⟨some 1320, ["x"]⟩
    1320 4 "Liya HUANG" [⟨some 540, ["F1"]⟩] 1140 [("Room A", "1")]
  refine ⟨?_, ?_, w1.1 rfl (by decide), w1.2.2 (by decide)⟩
  · exact (w1.2.1 (by decide) (by decide)).1
  · exact (w2.2.1 (by decide) (by decide)).1

/-- Pairing cells with column teachers preserves the cell list. -/
theorem zipT_map_fst :
    ∀ (cells ts : List String), (StudentTT.zipT cells ts).map (·.1) = cells
  | [], _ => rfl
  | a :: as, [] => by
    rw [StudentTT.zipT, List.map_cons, zipT_map_fst as []]
  | a :: as, x :: xs => by
    rw [StudentTT.zipT, List.map_cons, zipT_map_fst as xs]

/-- An empty resolved description renders as an empty cell in the student
renderer. -/
theorem renderStudentCell_empty (m : List (String × String))
    (hm : ∀ p ∈ m, p.1 ≠ "") :
    StudentTT.renderStudentCell m "" = "" := by
  cases m with
  | nil => rfl
  | cons p rest =>
    have h : StudentTT.renderStudentCell (p :: rest) ""
        = (p :: rest).foldl (fun s q => PyStr.pyReplace s q.1 q.2) "" := rfl
    rw [h]
    exact foldReplace_empty _ hm

/-- C5 (counterexample): in the teacher-resolution variant, a row on which
nothing resolves (empty cell) adds no entry at all — the slot is absent
from the daily schedule, and no "Free Time" entry is produced. -/
theorem C5_counterexample :
    TeacherTT.teacherRowStep ⟨"Flute", [], []⟩ false 1 ⟨some 540, [""]⟩ = none ∧
    (540, "Free Time")
      ∉ TeacherTT.teacherDaySchedule ⟨"Flute", [], []⟩ 0 1 "X" [⟨some 540, [""]⟩] := by
  refine ⟨by decide, by decide⟩

/-- C5 (amended): when no cascade rule matches any cell, the student
variant appends the empty string (an entry that is present and renders as
an empty block), the legacy `generate_timetables.py` student variant emits
"Free Time", and the teacher variant emits no entry at all (absence), with
absent slots later rendered as empty cells by the full-day fill. -/
theorem C5_no_match_fallbacks :
    ∀ (ctx : StudentTT.Ctx) (ts : List String) (d : Nat) (flag : Bool)
      (row : StudentTT.Row) (t : Nat)
      (octx : OldTT.Ctx) (pairs : List (String × String))
      (tctx : TeacherTT.Ctx) (isDay6 : Bool) (colIdx : Nat) (trow : TeacherTT.Row)
      (sortedTimes : List Nat) (daily : List (Nat × String)) (t3 : Nat)
      (m : List (String × String)),
      (d ≠ 5 → row.time = some t → ¬ (d < 5 ∧ 1020 ≤ t) →
        StudentTT.firstRuleMatch ctx
          (StudentTT.zipT (row.cells.map PyStr.pyStrip) (ts.map PyStr.pyStrip)) = none →
        StudentTT.findCommon ctx (row.cells.map PyStr.pyStrip) = none →
        StudentTT.studentRowEntries ctx (ts.map PyStr.pyStrip) d flag row
          = (flag, [(t, "")])) ∧
      ((∀ p ∈ m, p.1 ≠ "") → StudentTT.renderStudentCell m "" = "") ∧
      (OldTT.firstRuleMatchOld octx pairs = none →
        (pairs.map (·.1)).find? (fun a => PyStr.strStarts a "Master class with") = none →
        OldTT.commonActivitiesOld.find? (fun ca => (pairs.map (·.1)).contains ca) = none →
        OldTT.resolveRowPairsOld octx pairs = "Free Time") ∧
      (TeacherTT.teacherTransform tctx isDay6
          (PyStr.pyStrip (trow.cells.getD (colIdx - 1) "")) = "" →
        TeacherTT.teacherRowStep tctx isDay6 colIdx trow = none) ∧
      (daily.find? (fun p => p.1 == t3) = none → t3 ∈ sortedTimes →
        (t3, "") ∈ TeacherTT.fullDaySchedule sortedTimes daily) := by
  intro ctx ts d flag row t octx pairs tctx isDay6 colIdx trow sortedTimes daily t3 m
  refine ⟨?_, renderStudentCell_empty m, ?_, ?_, ?_⟩
  · intro hd htm hfilter hfrm hfc
    rw [studentRowEntries_nonDay6 ctx (ts.map PyStr.pyStrip) d flag row hd, htm]
    have hb : ¬ ((decide (d < 5) && decide (1020 ≤ t)) = true) := by
      simp only [Bool.and_eq_true, decide_eq_true_eq]
      exact hfilter
    dsimp only
    rw [if_neg hb]
    unfold StudentTT.resolveRowPairs
    rw [hfrm, zipT_map_fst, hfc]
    rfl
  · intro hfrm hmc hcommon
    unfold OldTT.resolveRowPairsOld OldTT.fallbackOld
    rw [hfrm, hmc, hcommon]
  · intro htrans
    obtain ⟨tm, cells⟩ := trow
    cases tm with
    | none => rfl
    | some t2 =>
      simp only [TeacherTT.teacherRowStep]
      by_cases h22 : 1320 ≤ t2
      · rw [if_pos h22]
      · rw [if_neg h22]
        by_cases h6 : (isDay6 && decide (t2 < 660)) = true
        · rw [if_pos h6]
        · rw [if_neg h6]
          simp only at htrans
          rw [htrans]
          rfl
  · intro hfind hmem
    unfold TeacherTT.fullDaySchedule
    refine List.mem_map.mpr ⟨t3, hmem, ?_⟩
    rw [hfind]
    rfl

/-- Witness for C5's amended theorem at concrete no-match rows. -/
theorem C5_witness :
    StudentTT.studentRowEntries ⟨"F9", "Flute", [], []⟩ (["T"].map PyStr.pyStrip) 0 false
        ⟨some 540, ["zzz"]⟩ = (false, [(540, "")]) ∧
    StudentTT.renderStudentCell [("Room A", "1")] "" = "" ∧
    OldTT.resolveRowPairsOld ⟨"F9", "flute", []⟩ [("zzz", "T")] = "Free Time" ∧
    TeacherTT.teacherRowStep ⟨"Flute", [], []⟩ false 1 ⟨some 540, [""]⟩ = none ∧
    (540, "") ∈ TeacherTT.fullDaySchedule [540] [] := by
  have w := C5_no_match_fallbacks ⟨"F9", "Flute", [], []⟩ ["T"] 0 false
    ⟨some 540, ["zzz"]⟩ 540 ⟨"F9", "flute", []⟩ [("zzz", "T")]
    ⟨"Flute", [], []⟩ false 1 ⟨some 540, [""]⟩ [540] [] 540 [("Room A", "1")]
  exact ⟨w.1 (by decide) rfl (by omega) (by decide) (by decide),
    w.2.1 (by decide),
    w.2.2.1 (by decide) (by decide) (by decide),
    w.2.2.2.1 (by decide),
    w.2.2.2.2 rfl (by decide)⟩

/-- Witness for C9 on a day with one surviving row, one filtered row and
one invalid-time row. -/
theorem C9_witness :
    (StudentTT.studentDay ⟨"F3", "Flute", [], []⟩ ["T"] 0
        [⟨some 540, ["F3"]⟩, ⟨some 1020, ["x"]⟩, ⟨none, ["y"]⟩]).countP
      (fun e => e.1 == 540) = 1 :=
  (C9_one_entry_per_surviving_row ⟨"F3", "Flute", [], []⟩ ["T"] 0
      [⟨some 540, ["F3"]⟩, ⟨some 1020, ["x"]⟩, ⟨none, ["y"]⟩] (by decide)).2.2 540
    (by decide) ⟨⟨some 540, ["F3"]⟩, List.mem_cons_self _ _, rfl, by decide⟩
